import Mathlib

/-!
# wxFreeChart: axis window and XYZ (bubble) renderer

A shallow embedding of `include/wx/axis/axis.h` (class `Axis`) and of
`src/xyz/xyzrenderer.cpp` (class `XYZRenderer`).

Conventions of the embedding:

* in `Axis`, whose inline member functions store, compare and add window values, a
  C++ `double` is a rational number (`ℚ`);
* in `XYZRenderer::Draw`, which divides, multiplies, adds and converts, a `double` is
  an IEEE 754 binary64 value: a finite value is a rational number of the binary64
  grid, every operation rounds its exact result to the nearest value of the grid,
  ties to even, and gives an infinity when the rounded result exceeds the largest
  finite value; infinities and NaN are values of their own; the sign of a zero is
  not represented (no radius depends on it); each operation of the source is one
  rounded operation (no fused multiply-add, no extended precision); the values a
  dataset provides are finite;
* a C++ `int` / `wxCoord` is an `Int` between `INT_MIN` and `INT_MAX`; an `int`
  subtraction that overflows and a conversion of a `double` that does not fit are
  undefined in C++ and give `none`;
* `size_t` series and item indices are `Nat`;
* out-parameters become returned pairs, member functions that assign fields return
  the new object, and the device context is the list of drawing commands it received.
-/

namespace WxFreeChart

/-! ## Axis (`include/wx/axis/axis.h`) -/

/-- The enumeration `AXIS_LOCATION`. -/
inductive AXIS_LOCATION where
  | AXIS_LEFT
  | AXIS_RIGHT
  | AXIS_TOP
  | AXIS_BOTTOM
  deriving DecidableEq, Repr

/-- The enumerator values of `AXIS_LOCATION`: `AXIS_LEFT = 1`, the others follow. -/
def AXIS_LOCATION.toInt : AXIS_LOCATION → Int
  | .AXIS_LEFT => 1
  | .AXIS_RIGHT => 2
  | .AXIS_TOP => 3
  | .AXIS_BOTTOM => 4

/-- The data members of `Axis` that its inline member functions read or assign
(the dataset array and the two gridline pens play no part in them). -/
structure Axis where
  m_marginMin : Int
  m_marginMax : Int
  m_winPos : ℚ
  m_winWidth : ℚ
  m_useWin : Bool
  m_location : AXIS_LOCATION
  m_shareCount : Nat
  deriving DecidableEq, Repr

/-- Modelled from the spec: the toolkit's `wxMin`, whose definition is not among the
sources; the spec reads it as the bound of the window by the data maximum, and the
toolkit defines it as `(a < b) ? a : b`. -/
def wxMin (a b : ℚ) : ℚ := if a < b then a else b

namespace Axis

/-- `Axis::GetLocation`. -/
def GetLocation (ax : Axis) : AXIS_LOCATION := ax.m_location

/-- `Axis::GetWindowBounds`.  The pure virtual `GetDataBounds` is the argument
`dataBounds = (minValue, maxValue)`; the result is `(winMin, winMax)`. -/
def GetWindowBounds (ax : Axis) (dataBounds : ℚ × ℚ) : ℚ × ℚ :=
  let minValue := dataBounds.1
  let maxValue := dataBounds.2
  if ax.m_useWin then
    let winMin := ax.m_winPos
    let winMax := wxMin maxValue (winMin + ax.m_winWidth)
    (winMin, winMax)
  else
    (minValue, maxValue)

/-- `Axis::GetWindowPosition`. -/
def GetWindowPosition (ax : Axis) : ℚ := ax.m_winPos

/-- `Axis::GetWindowWidth`. -/
def GetWindowWidth (ax : Axis) : ℚ := ax.m_winWidth

/-- `Axis::IsVertical`. -/
def IsVertical (ax : Axis) : Bool :=
  (ax.m_location == .AXIS_LEFT) || (ax.m_location == .AXIS_RIGHT)

/-- `Axis::IsHorizontal`. -/
def IsHorizontal (ax : Axis) : Bool := !ax.IsVertical

/-- `Axis::SetUseWindow`. -/
def SetUseWindow (ax : Axis) (useWin : Bool) : Axis :=
  if ax.m_useWin != useWin then { ax with m_useWin := useWin } else ax

/-- `Axis::SetWindow`. -/
def SetWindow (ax : Axis) (winPos winWidth : ℚ) : Axis :=
  if ax.m_winPos ≠ winPos ∨ ax.m_winWidth ≠ winWidth then
    { ax with m_winPos := winPos, m_winWidth := winWidth }
  else ax

/-- `Axis::SetWindowPosition`. -/
def SetWindowPosition (ax : Axis) (winPos : ℚ) : Axis :=
  ax.SetWindow winPos ax.m_winWidth

/-- `Axis::SetWindowWidth`. -/
def SetWindowWidth (ax : Axis) (winWidth : ℚ) : Axis :=
  ax.SetWindow ax.m_winPos winWidth

end Axis

/-! ## Binary64 arithmetic and `int` arithmetic -/

/-- Rounding of a rational number to the nearest integer, ties to the even one. -/
def roundHalfEven (m : ℚ) : Int :=
  if m - ⌊m⌋ < 1 / 2 then ⌊m⌋
  else if 1 / 2 < m - ⌊m⌋ then ⌊m⌋ + 1
  else if ⌊m⌋ % 2 = 0 then ⌊m⌋ else ⌊m⌋ + 1

/-- The binary exponent of the unit in the last place of the binary64 values near
`q`: 52 below the exponent of `q`, and `-1074` in the subnormal range. -/
def ulpExp (q : ℚ) : Int := max (Int.log 2 |q| - 52) (-1074)

/-- Rounding to the nearest value of the binary64 grid (53 significant bits, least
exponent `-1074`), ties to even, the exponent range not bounded above. -/
def roundToGrid (q : ℚ) : ℚ := (roundHalfEven (q / 2 ^ ulpExp q) : ℚ) * 2 ^ ulpExp q

/-- The largest finite binary64 value, `(2 ^ 53 - 1) * 2 ^ 971`. -/
def maxFinite : ℚ := (2 ^ 53 - 1) * 2 ^ 971

/-- A finite `double`, given by an integer significand below `2 ^ 53` in magnitude
and a binary exponent between `-1074` and `971`. -/
structure FiniteDouble where
  mant : Int
  expo : Int
  mant_lt : mant.natAbs < 2 ^ 53
  expo_ge : -1074 ≤ expo
  expo_le : expo ≤ 971
  deriving DecidableEq

/-- The number a finite `double` stands for. -/
def FiniteDouble.val (d : FiniteDouble) : ℚ := (d.mant : ℚ) * 2 ^ d.expo

/-- A `double`, the result of an operation: a finite value, an infinity with its
sign, or a NaN. -/
inductive Double where
  | finite (q : ℚ)
  | inf (negative : Bool)
  | nan
  deriving DecidableEq

/-- A finite `double` as an operand. -/
def FiniteDouble.toDouble (d : FiniteDouble) : Double := .finite d.val

/-- The `double` an operation of exact result `q` returns: `q` rounded to the grid,
or the infinity of the sign of `q` when the rounded value exceeds `maxFinite`. -/
def Double.round (q : ℚ) : Double :=
  if |roundToGrid q| ≤ maxFinite then .finite (roundToGrid q) else .inf (decide (q < 0))

/-- The conversion of an `int` to `double`. -/
def Double.ofInt (n : Int) : Double := Double.round (n : ℚ)

/-- The sum of two `double`s. -/
def Double.add : Double → Double → Double
  | .finite a, .finite b => Double.round (a + b)
  | .finite _, .inf s => .inf s
  | .inf s, .finite _ => .inf s
  | .inf s, .inf t => if s = t then .inf s else .nan
  | _, _ => .nan

/-- The difference of two `double`s. -/
def Double.sub : Double → Double → Double
  | .finite a, .finite b => Double.round (a - b)
  | .finite _, .inf s => .inf (!s)
  | .inf s, .finite _ => .inf s
  | .inf s, .inf t => if s = t then .nan else .inf s
  | _, _ => .nan

/-- The product of two `double`s. -/
def Double.mul : Double → Double → Double
  | .finite a, .finite b => Double.round (a * b)
  | .finite a, .inf s => if a = 0 then .nan else .inf (xor (decide (a < 0)) s)
  | .inf s, .finite b => if b = 0 then .nan else .inf (xor s (decide (b < 0)))
  | .inf s, .inf t => .inf (xor s t)
  | _, _ => .nan

/-- The quotient of two `double`s: a finite value divided by zero is an infinity, or
a NaN when the dividend is zero too. -/
def Double.div : Double → Double → Double
  | .finite a, .finite b =>
    if b = 0 then (if a = 0 then .nan else .inf (decide (a < 0))) else Double.round (a / b)
  | .finite _, .inf _ => .finite 0
  | .inf s, .finite b => .inf (xor s (decide (b < 0)))
  | _, _ => .nan

/-- Recognises a finite `double`. -/
def Double.isFinite : Double → Bool
  | .finite _ => true
  | _ => false

/-- The least `int`. -/
def INT_MIN : Int := -2147483648

/-- The greatest `int`. -/
def INT_MAX : Int := 2147483647

/-- The subtraction of two `int`s; `none` when an operand is not an `int` value or
the difference overflows. -/
def intSub (a b : Int) : Option Int :=
  if INT_MIN ≤ a ∧ a ≤ INT_MAX ∧ INT_MIN ≤ b ∧ b ≤ INT_MAX ∧
      INT_MIN ≤ a - b ∧ a - b ≤ INT_MAX then some (a - b)
  else none

/-- The conversion `(wxCoord) d` of a `double` to the 32-bit `wxCoord`: truncation
toward zero; `none` when the truncated value does not fit or `d` is not finite. -/
def wxCoordOfDouble : Double → Option Int
  | .finite d =>
    if INT_MIN ≤ (if 0 ≤ d then ⌊d⌋ else ⌈d⌉) ∧ (if 0 ≤ d then ⌊d⌋ else ⌈d⌉) ≤ INT_MAX then
      some (if 0 ≤ d then ⌊d⌋ else ⌈d⌉)
    else none
  | _ => none

/-! ## Toolkit objects used by the renderer

The pen, brush, colour, rectangle and device-context classes belong to the GUI
toolkit and the dataset class to a header that is not among the sources; only what
`XYZRenderer` does with them is represented. -/

/-- Modelled from the spec: the toolkit's colour object (`wxColour`), a value with
red, green, blue and alpha channels. -/
structure wxColour where
  red : Nat
  green : Nat
  blue : Nat
  alpha : Nat
  deriving DecidableEq, Repr

/-- Modelled from the spec: the toolkit's pen styles; `wxPENSTYLE_SOLID` is the one
the renderer names. -/
inductive wxPenStyle where
  | wxPENSTYLE_SOLID
  | wxPENSTYLE_DOT
  | wxPENSTYLE_LONG_DASH
  | wxPENSTYLE_SHORT_DASH
  | wxPENSTYLE_DOT_DASH
  | wxPENSTYLE_TRANSPARENT
  deriving DecidableEq, Repr

/-- Modelled from the spec: the toolkit's brush styles; `wxBRUSHSTYLE_SOLID` is the
one the renderer names. -/
inductive wxBrushStyle where
  | wxBRUSHSTYLE_SOLID
  | wxBRUSHSTYLE_TRANSPARENT
  | wxBRUSHSTYLE_CROSS_HATCH
  deriving DecidableEq, Repr

/-- Modelled from the spec: the toolkit's pen object, a value made of a colour, a
width and a style. -/
structure wxPen where
  colour : wxColour
  width : Int
  style : wxPenStyle
  deriving DecidableEq, Repr

/-- Modelled from the spec: the toolkit's brush object, a value made of a colour and
a style. -/
structure wxBrush where
  colour : wxColour
  style : wxBrushStyle
  deriving DecidableEq, Repr

/-- `wxPen::GetColour`. -/
def wxPen.GetColour (pen : wxPen) : wxColour := pen.colour

/-- `wxBrush::GetColour`. -/
def wxBrush.GetColour (brush : wxBrush) : wxColour := brush.colour

/-- Modelled from the spec: `wxThePenList->FindOrCreatePen`, which hands out the pen
with the given colour, width and style. -/
def FindOrCreatePen (colour : wxColour) (width : Int) (style : wxPenStyle) : wxPen :=
  { colour := colour, width := width, style := style }

/-- Modelled from the spec: `wxTheBrushList->FindOrCreateBrush`, which hands out the
brush with the given colour and style. -/
def FindOrCreateBrush (colour : wxColour) (style : wxBrushStyle) : wxBrush :=
  { colour := colour, style := style }

/-- Modelled from the spec: the toolkit's rectangle (`wxRect`). -/
structure wxRect where
  x : Int
  y : Int
  width : Int
  height : Int
  deriving DecidableEq, Repr

/-- The calls a device context (`wxDC`) receives from `XYZRenderer::Draw`.  The
radius of `DrawCircle` is `none` when C++ leaves it undefined: the conversion of a
`double` that is not finite or does not fit, or an `int` overflow before it. -/
inductive DCCommand where
  | SetPen (pen : wxPen)
  | SetBrush (brush : wxBrush)
  | DrawCircle (x y : Int) (radius : Option Int)
  deriving DecidableEq, Repr

/-- Recognises a `DrawCircle` call. -/
def DCCommand.isDrawCircle : DCCommand → Bool
  | .DrawCircle _ _ _ => true
  | _ => false

/-- Modelled from the spec: the dataset (`NaryDataSet`), an external collaborator
providing per-series, per-index scalar values along one or more dimensions, the
number of series, the number of items of each series and the bounds of each
dimension; the values are finite `double`s. -/
structure NaryDataSet where
  GetSerieCount : Nat
  GetCount : Nat → Nat
  InterpretDataAsValue : Nat → Nat → Nat → FiniteDouble
  GetMinValue1 : Nat → FiniteDouble
  GetMaxValue1 : Nat → FiniteDouble

/-- A keyed table (`PenMap`, `BrushMap`): `none` is a key that `find` does not find. -/
abbrev wxHashMap (α : Type) := Nat → Option α

/-- The assignment `m[key] = value` of a keyed table. -/
def wxHashMap.set {α : Type} (m : wxHashMap α) (key : Nat) (value : α) : wxHashMap α :=
  fun k => if k = key then some value else m k

/-- Modelled from the spec: the loop macros `FOREACH_SERIE` and `FOREACH_DATAITEM`,
which run their body for the indices `start, start + 1, ...` below the bound, in
increasing order; `remaining` is the number of iterations left. -/
def forEachFrom {σ : Type} (body : Nat → σ → σ) : Nat → Nat → σ → σ
  | _, 0, st => st
  | start, remaining + 1, st => forEachFrom body (start + 1) remaining (body start st)

/-- The loop `for (size_t index = 0; index < bound; index++) body`. -/
def forEach {σ : Type} (bound : Nat) (body : Nat → σ → σ) (st : σ) : σ :=
  forEachFrom body 0 bound st

/-! ## XYZRenderer (`src/xyz/xyzrenderer.cpp`) -/

/-- The data members of `XYZRenderer`. -/
structure XYZRenderer where
  m_minRad : Int
  m_maxRad : Int
  m_defaultPenWidth : Int
  m_defaultPenStyle : wxPenStyle
  m_defaultBrushStyle : wxBrushStyle
  m_seriePens : wxHashMap wxPen
  m_serieBrushs : wxHashMap wxBrush

namespace XYZRenderer

/-- The constructor `XYZRenderer::XYZRenderer(int minRad, int maxRad)`; both tables
start empty. -/
def new (minRad maxRad : Int) : XYZRenderer :=
  { m_minRad := minRad
    m_maxRad := maxRad
    m_defaultPenWidth := 1
    m_defaultPenStyle := .wxPENSTYLE_SOLID
    m_defaultBrushStyle := .wxBRUSHSTYLE_SOLID
    m_seriePens := fun _ => none
    m_serieBrushs := fun _ => none }

/-- `XYZRenderer::SetSeriePen`. -/
def SetSeriePen (rd : XYZRenderer) (serie : Nat) (pen : wxPen) : XYZRenderer :=
  { rd with m_seriePens := rd.m_seriePens.set serie pen }

/-- `XYZRenderer::SetSerieBrush`. -/
def SetSerieBrush (rd : XYZRenderer) (serie : Nat) (brush : wxBrush) : XYZRenderer :=
  { rd with m_serieBrushs := rd.m_serieBrushs.set serie brush }

/-- `XYZRenderer::SetSerieColor`. -/
def SetSerieColor (rd : XYZRenderer) (serie : Nat) (color : wxColour) : XYZRenderer :=
  let rd1 := rd.SetSeriePen serie
    (FindOrCreatePen color rd.m_defaultPenWidth rd.m_defaultPenStyle)
  rd1.SetSerieBrush serie (FindOrCreateBrush color rd1.m_defaultBrushStyle)

/-- `XYZRenderer::GetSerieColor`; `GetDefaultColour`, defined outside the sources,
is an argument. -/
def GetSerieColor (GetDefaultColour : Nat → wxColour) (rd : XYZRenderer) (serie : Nat) :
    wxColour :=
  match rd.m_serieBrushs serie with
  | none => GetDefaultColour serie
  | some brush => brush.GetColour

/-- `XYZRenderer::GetSeriePen`. -/
def GetSeriePen (GetDefaultColour : Nat → wxColour) (rd : XYZRenderer) (serie : Nat) :
    wxPen :=
  match rd.m_seriePens serie with
  | none => FindOrCreatePen (GetDefaultColour serie) rd.m_defaultPenWidth rd.m_defaultPenStyle
  | some pen => pen

/-- `XYZRenderer::GetSerieBrush`. -/
def GetSerieBrush (GetDefaultColour : Nat → wxColour) (rd : XYZRenderer) (serie : Nat) :
    wxBrush :=
  match rd.m_serieBrushs serie with
  | none => FindOrCreateBrush (GetDefaultColour serie) rd.m_defaultBrushStyle
  | some brush => brush

/-- The scale factor of `Draw`: `double k = (m_maxRad - m_minRad) / (maxZ - minZ)`,
the subtraction of the radii done on `int`s and its result converted to `double`;
`none` when the `int` subtraction is undefined. -/
def Draw.k (rd : XYZRenderer) (minZ maxZ : FiniteDouble) : Option Double :=
  (intSub rd.m_maxRad rd.m_minRad).map
    (fun d => Double.div (Double.ofInt d) (Double.sub maxZ.toDouble minZ.toDouble))

/-- The radius of `Draw`: `wxCoord r = (wxCoord) ((zVal - minZ) * k + m_minRad)`. -/
def Draw.r (rd : XYZRenderer) (minZ : FiniteDouble) (k : Option Double)
    (zVal : FiniteDouble) : Option Int :=
  k.bind (fun k => wxCoordOfDouble
    (Double.add (Double.mul (Double.sub zVal.toDouble minZ.toDouble) k)
      (Double.ofInt rd.m_minRad)))

/-- The body of the item loop of `Draw`.  The virtual `Axis::ToGraphics` of the two
axes are the arguments `horizToGraphics` and `vertToGraphics`, taking the minimal
coordinate, the range and the data value. -/
def Draw.itemBody (rd : XYZRenderer) (rc : wxRect)
    (horizToGraphics vertToGraphics : Int → Int → FiniteDouble → Int) (dataset : NaryDataSet)
    (minZ : FiniteDouble) (k : Option Double) (serie n : Nat) (dc : List DCCommand) : List DCCommand :=
  let xVal := dataset.InterpretDataAsValue serie n 0
  let yVal := dataset.InterpretDataAsValue serie n 1
  let zVal := dataset.InterpretDataAsValue serie n 2
  let x := horizToGraphics rc.x rc.width xVal
  let y := vertToGraphics rc.y rc.height yVal
  let r := Draw.r rd minZ k zVal
  dc ++ [DCCommand.DrawCircle x y r]

/-- The body of the series loop of `Draw`. -/
def Draw.serieBody (GetDefaultColour : Nat → wxColour) (rd : XYZRenderer) (rc : wxRect)
    (horizToGraphics vertToGraphics : Int → Int → FiniteDouble → Int) (dataset : NaryDataSet)
    (minZ : FiniteDouble) (k : Option Double) (serie : Nat) (dc : List DCCommand) : List DCCommand :=
  let dc1 := dc ++ [DCCommand.SetPen (GetSeriePen GetDefaultColour rd serie)]
  let dc2 := dc1 ++ [DCCommand.SetBrush (GetSerieBrush GetDefaultColour rd serie)]
  forEach (dataset.GetCount serie)
    (Draw.itemBody rd rc horizToGraphics vertToGraphics dataset minZ k serie) dc2

/-- `XYZRenderer::Draw`: the device context is the list of the calls it received. -/
def Draw (GetDefaultColour : Nat → wxColour) (rd : XYZRenderer) (dc : List DCCommand)
    (rc : wxRect) (horizToGraphics vertToGraphics : Int → Int → FiniteDouble → Int)
    (dataset : NaryDataSet) : List DCCommand :=
  let minZ := dataset.GetMinValue1 2
  let maxZ := dataset.GetMaxValue1 2
  let k := Draw.k rd minZ maxZ
  forEach dataset.GetSerieCount
    (Draw.serieBody GetDefaultColour rd rc horizToGraphics vertToGraphics dataset minZ k) dc

end XYZRenderer

/-! ## The description of the renderer, in the words of the specification -/

/-- The member functions that change a renderer, with their arguments. -/
inductive RendererCall where
  | SetSeriePen (serie : Nat) (pen : wxPen)
  | SetSerieBrush (serie : Nat) (brush : wxBrush)
  | SetSerieColor (serie : Nat) (color : wxColour)
  deriving DecidableEq, Repr

/-- The renderer after one call. -/
def XYZRenderer.call (rd : XYZRenderer) : RendererCall → XYZRenderer
  | .SetSeriePen serie pen => rd.SetSeriePen serie pen
  | .SetSerieBrush serie brush => rd.SetSerieBrush serie brush
  | .SetSerieColor serie color => rd.SetSerieColor serie color

/-- The renderer after a sequence of calls, the first call first. -/
def XYZRenderer.calls (rd : XYZRenderer) (cs : List RendererCall) : XYZRenderer :=
  cs.foldl XYZRenderer.call rd

/-- The pen that one call stores for series `s` through `SetSeriePen`, if it stores
one: `SetSerieColor` stores the solid pen of width 1 of its colour. -/
def RendererCall.storedPen (s : Nat) : RendererCall → Option wxPen
  | .SetSeriePen serie pen => if serie = s then some pen else none
  | .SetSerieBrush _ _ => none
  | .SetSerieColor serie color =>
      if serie = s then some { colour := color, width := 1, style := .wxPENSTYLE_SOLID }
      else none

/-- The brush that one call stores for series `s` through `SetSerieBrush`, if it
stores one: `SetSerieColor` stores the solid brush of its colour. -/
def RendererCall.storedBrush (s : Nat) : RendererCall → Option wxBrush
  | .SetSeriePen _ _ => none
  | .SetSerieBrush serie brush => if serie = s then some brush else none
  | .SetSerieColor serie color =>
      if serie = s then some { colour := color, style := .wxBRUSHSTYLE_SOLID } else none

/-- The pen last stored for series `s` by a sequence of calls, if one was stored. -/
def lastStoredPen (s : Nat) : List RendererCall → Option wxPen
  | [] => none
  | c :: cs =>
    match lastStoredPen s cs with
    | some pen => some pen
    | none => c.storedPen s

/-- The brush last stored for series `s` by a sequence of calls, if one was stored. -/
def lastStoredBrush (s : Nat) : List RendererCall → Option wxBrush
  | [] => none
  | c :: cs =>
    match lastStoredBrush s cs with
    | some brush => some brush
    | none => c.storedBrush s

/-- The commands of one series: one `SetPen`, one `SetBrush`, then one `DrawCircle`
per item in increasing item order, the radius of item `n` being `radius serie n`. -/
def serieCommands (GetDefaultColour : Nat → wxColour) (rd : XYZRenderer) (rc : wxRect)
    (horizToGraphics vertToGraphics : Int → Int → FiniteDouble → Int) (dataset : NaryDataSet)
    (radius : Nat → Nat → Option Int) (serie : Nat) : List DCCommand :=
  DCCommand.SetPen (rd.GetSeriePen GetDefaultColour serie) ::
  DCCommand.SetBrush (rd.GetSerieBrush GetDefaultColour serie) ::
  (List.range (dataset.GetCount serie)).map (fun n =>
    DCCommand.DrawCircle
      (horizToGraphics rc.x rc.width (dataset.InterpretDataAsValue serie n 0))
      (vertToGraphics rc.y rc.height (dataset.InterpretDataAsValue serie n 1))
      (radius serie n))

/-- The commands of a whole drawing: those of each series in increasing index order. -/
def drawCommands (GetDefaultColour : Nat → wxColour) (rd : XYZRenderer) (rc : wxRect)
    (horizToGraphics vertToGraphics : Int → Int → FiniteDouble → Int) (dataset : NaryDataSet)
    (radius : Nat → Nat → Option Int) : List DCCommand :=
  (List.range dataset.GetSerieCount).flatMap
    (serieCommands GetDefaultColour rd rc horizToGraphics vertToGraphics dataset radius)

/-- The total number of data items over all series. -/
def totalItems (dataset : NaryDataSet) : Nat :=
  ((List.range dataset.GetSerieCount).map dataset.GetCount).sum

/-- The interpolated radius of the specification,
`(z - minZ) * (maxRad - minRad) / (maxZ - minZ) + minRad`, before truncation. -/
def specRadius (minRad maxRad : Int) (minZ maxZ z : ℚ) : ℚ :=
  (z - minZ) * ((maxRad : ℚ) - (minRad : ℚ)) / (maxZ - minZ) + (minRad : ℚ)

/-- Truncation toward zero: the floor of a value that is not negative, the ceiling
of a negative one. -/
def truncTowardZero (q : ℚ) : Int := if 0 ≤ q then ⌊q⌋ else ⌈q⌉

/-- The operation of exact result `q` does not round: `q` is a finite `double`. -/
def IsExact (q : ℚ) : Prop := Double.round q = Double.finite q

/-- The arithmetic of the radius of an item of value `z` is exact: the `int`
subtraction of the radii does not overflow, none of the five `double` operations
rounds, and the truncated radius is a `wxCoord` value. -/
def exactArithmetic (rd : XYZRenderer) (minZ maxZ z : FiniteDouble) : Prop :=
  intSub rd.m_maxRad rd.m_minRad = some (rd.m_maxRad - rd.m_minRad) ∧
  IsExact (maxZ.val - minZ.val) ∧
  IsExact (((rd.m_maxRad - rd.m_minRad : Int) : ℚ) / (maxZ.val - minZ.val)) ∧
  IsExact (z.val - minZ.val) ∧
  IsExact ((z.val - minZ.val) *
    (((rd.m_maxRad - rd.m_minRad : Int) : ℚ) / (maxZ.val - minZ.val))) ∧
  IsExact ((z.val - minZ.val) *
    (((rd.m_maxRad - rd.m_minRad : Int) : ℚ) / (maxZ.val - minZ.val)) +
    (rd.m_minRad : ℚ)) ∧
  INT_MIN ≤ truncTowardZero (specRadius rd.m_minRad rd.m_maxRad minZ.val maxZ.val z.val) ∧
  truncTowardZero (specRadius rd.m_minRad rd.m_maxRad minZ.val maxZ.val z.val) ≤ INT_MAX

/-- The `double` that `Draw` converts to the radius of an item of value `z` when
the scale factor is the finite `k` and no operation overflows: the difference, the
product and the sum, each rounded. -/
def Draw.value (minRad : Int) (lo k z : ℚ) : ℚ :=
  roundToGrid (roundToGrid (roundToGrid (z - lo) * k) + (minRad : ℚ))

/-- The scale factor in rounded arithmetic: the difference of the radii divided by
the rounded difference of the bounds, rounded. -/
def roundedScale (minRad maxRad : Int) (minZ maxZ : ℚ) : ℚ :=
  roundToGrid (((maxRad - minRad : Int) : ℚ) / roundToGrid (maxZ - minZ))

/-- The interpolated radius in rounded arithmetic, before truncation:
`(z - minZ) * k + minRad` with `k = (maxRad - minRad) / (maxZ - minZ)`, each of the
five operations rounded to the nearest `double`. -/
def roundedRadius (minRad maxRad : Int) (minZ maxZ z : ℚ) : ℚ :=
  Draw.value minRad minZ (roundedScale minRad maxRad minZ maxZ) z

/-- No operation of the radius of an item of value `z` overflows: the `int`
subtraction of the radii is defined, the five rounded `double` results are finite,
and the truncated radius is a `wxCoord` value. -/
def noOverflow (rd : XYZRenderer) (minZ maxZ z : FiniteDouble) : Prop :=
  intSub rd.m_maxRad rd.m_minRad = some (rd.m_maxRad - rd.m_minRad) ∧
  |roundToGrid (maxZ.val - minZ.val)| ≤ maxFinite ∧
  |roundedScale rd.m_minRad rd.m_maxRad minZ.val maxZ.val| ≤ maxFinite ∧
  |roundToGrid (z.val - minZ.val)| ≤ maxFinite ∧
  |roundToGrid (roundToGrid (z.val - minZ.val) *
    roundedScale rd.m_minRad rd.m_maxRad minZ.val maxZ.val)| ≤ maxFinite ∧
  |roundedRadius rd.m_minRad rd.m_maxRad minZ.val maxZ.val z.val| ≤ maxFinite ∧
  INT_MIN ≤ truncTowardZero (roundedRadius rd.m_minRad rd.m_maxRad minZ.val maxZ.val z.val) ∧
  truncTowardZero (roundedRadius rd.m_minRad rd.m_maxRad minZ.val maxZ.val z.val) ≤ INT_MAX

/-! ## Sample inputs -/

/-- A palette: series `i` gets the grey of level `i % 256`. -/
def sampleColour (i : Nat) : wxColour :=
  { red := i % 256, green := i % 256, blue := i % 256, alpha := 255 }

/-- A red colour. -/
def sampleRed : wxColour := { red := 255, green := 0, blue := 0, alpha := 255 }

/-- The `double` 0. -/
def double0 : FiniteDouble := ⟨0, 0, by decide, by decide, by decide⟩

/-- The `double` 1. -/
def double1 : FiniteDouble := ⟨1, 0, by decide, by decide, by decide⟩

/-- The `double` 2. -/
def double2 : FiniteDouble := ⟨2, 0, by decide, by decide, by decide⟩

/-- The `double` 3. -/
def double3 : FiniteDouble := ⟨3, 0, by decide, by decide, by decide⟩

/-- The `double` 5. -/
def double5 : FiniteDouble := ⟨5, 0, by decide, by decide, by decide⟩

/-- The `double` 49. -/
def double49 : FiniteDouble := ⟨49, 0, by decide, by decide, by decide⟩

/-- The `double` 2.25. -/
def doubleNineFourths : FiniteDouble := ⟨9, -2, by decide, by decide, by decide⟩

/-- The `double` nearest to 0.3, `5404319552844595 / 2 ^ 54`. -/
def doubleThreeTenths : FiniteDouble :=
  ⟨5404319552844595, -54, by decide, by decide, by decide⟩

/-- The largest finite `double`. -/
def doubleMax : FiniteDouble := ⟨9007199254740991, 971, by decide, by decide, by decide⟩

/-- The least finite `double`, the opposite of the largest. -/
def doubleLowest : FiniteDouble := ⟨-9007199254740991, 971, by decide, by decide, by decide⟩

/-- The least positive `double`, `2 ^ (-1074)`. -/
def doubleMinPositive : FiniteDouble := ⟨1, -1074, by decide, by decide, by decide⟩

/-- A dataset of two series: series 0 has the items `(0, 0, 1)`, `(1, 2, 2.25)` and
`(2, 5, 5)`, series 1 has no item; the third dimension ranges over `[1, 5]`. -/
def sampleDataset : NaryDataSet :=
  { GetSerieCount := 2
    GetCount := fun serie => if serie = 0 then 3 else 0
    InterpretDataAsValue := fun _ n dim =>
      if dim = 2 then (if n = 0 then double1 else if n = 1 then doubleNineFourths else double5)
      else if dim = 1 then (if n = 0 then double0 else if n = 1 then double2 else double5)
      else (if n = 0 then double0 else if n = 1 then double1 else double2)
    GetMinValue1 := fun _ => double1
    GetMaxValue1 := fun _ => double5 }

/-- A dataset of one series with the single item `(0, 0, 3)`; the third dimension
has the zero range `[3, 3]`. -/
def flatDataset : NaryDataSet :=
  { GetSerieCount := 1
    GetCount := fun _ => 1
    InterpretDataAsValue := fun _ _ dim => if dim = 2 then double3 else double0
    GetMinValue1 := fun _ => double3
    GetMaxValue1 := fun _ => double3 }

/-- An axis transform: the minimal coordinate plus the floor of the value. -/
def sampleToGraphics (minCoord _gRange : Int) (value : FiniteDouble) : Int :=
  minCoord + ⌊value.val⌋

/-- A drawing rectangle. -/
def sampleRect : wxRect := { x := 10, y := 20, width := 100, height := 50 }

/-! ## Theorems about `Axis` -/

/-- The toolkit minimum is the minimum of the order. -/
theorem wxMin_eq_min (a b : ℚ) : wxMin a b = min a b := by
  unfold wxMin
  split_ifs with h
  · exact (min_eq_left h.le).symm
  · exact (min_eq_right (not_lt.mp h)).symm

/-- The two branches of `Axis::GetWindowBounds`. -/
theorem GetWindowBounds_eq (ax : Axis) (dataMin dataMax : ℚ) :
    ax.GetWindowBounds (dataMin, dataMax) =
      if ax.m_useWin = true then (ax.m_winPos, min dataMax (ax.m_winPos + ax.m_winWidth))
      else (dataMin, dataMax) := by
  unfold Axis.GetWindowBounds
  cases h : ax.m_useWin <;> simp [wxMin_eq_min]

/-- C1: `Axis::GetWindowBounds` returns `(winMin, winMax) = (dataMin, dataMax)` when
the window is not used, and `(winPos, min(dataMax, winPos + winWidth))` when it is
used. -/
theorem C1_GetWindowBounds_spec (ax : Axis) (dataMin dataMax : ℚ) :
    (ax.m_useWin = false → ax.GetWindowBounds (dataMin, dataMax) = (dataMin, dataMax)) ∧
    (ax.m_useWin = true → ax.GetWindowBounds (dataMin, dataMax) =
      (ax.m_winPos, min dataMax (ax.m_winPos + ax.m_winWidth))) := by
  constructor
  · intro h
    rw [GetWindowBounds_eq]
    simp [h]
  · intro h
    rw [GetWindowBounds_eq, if_pos h]

/-- Witness of the C1 theorem: with the window in use at position `2` and
width `5` over the data bounds `(0, 4)` the window is `(2, min 4 7)`; with the window
not in use it is `(0, 4)`. -/
theorem C1_GetWindowBounds_spec_witness :
    (Axis.mk 0 0 2 5 false .AXIS_BOTTOM 0).GetWindowBounds (0, 4) = (0, 4) ∧
    (Axis.mk 0 0 2 5 true .AXIS_BOTTOM 0).GetWindowBounds (0, 4) = (2, min 4 (2 + 5)) :=
  ⟨(C1_GetWindowBounds_spec (Axis.mk 0 0 2 5 false .AXIS_BOTTOM 0) 0 4).1 rfl,
   (C1_GetWindowBounds_spec (Axis.mk 0 0 2 5 true .AXIS_BOTTOM 0) 0 4).2 rfl⟩

/-- The window upper bound never exceeds the data maximum. -/
theorem GetWindowBounds_snd_le (ax : Axis) (dataMin dataMax : ℚ) :
    (ax.GetWindowBounds (dataMin, dataMax)).2 ≤ dataMax := by
  rw [GetWindowBounds_eq]
  split_ifs
  · exact min_le_left _ _
  · exact le_refl _

/-- With the window in use, the returned bounds lie inside the data bounds in
increasing order exactly when the stored position lies inside the data bounds and
the stored width is not negative. -/
theorem GetWindowBounds_inside_iff (ax : Axis) (dataMin dataMax : ℚ)
    (hwin : ax.m_useWin = true) :
    (dataMin ≤ (ax.GetWindowBounds (dataMin, dataMax)).1 ∧
      (ax.GetWindowBounds (dataMin, dataMax)).1 ≤ (ax.GetWindowBounds (dataMin, dataMax)).2 ∧
      (ax.GetWindowBounds (dataMin, dataMax)).2 ≤ dataMax) ↔
    (dataMin ≤ ax.m_winPos ∧ ax.m_winPos ≤ dataMax ∧ 0 ≤ ax.m_winWidth) := by
  rw [GetWindowBounds_eq, if_pos hwin]
  simp only [le_min_iff, min_le_iff, le_refl, true_or, and_true]
  constructor
  · rintro ⟨h1, h2, h3⟩
    exact ⟨h1, h2, by linarith⟩
  · rintro ⟨h1, h2, h3⟩
    exact ⟨h1, h2, by linarith⟩

/-- C2 (as stated, refuted): two axes with the window in use and data bounds
`0 ≤ 10`.  Position `-3` gives `winMin = -3`, below the data minimum; position
`12` gives `(winMin, winMax) = (12, 10)`, above the data maximum and out of order. -/
theorem C2_window_not_subset :
    (Axis.mk 0 0 (-3) 2 true .AXIS_BOTTOM 0).GetWindowBounds (0, 10) = (-3, -1) ∧
    ¬ ((0 : ℚ) ≤ ((Axis.mk 0 0 (-3) 2 true .AXIS_BOTTOM 0).GetWindowBounds (0, 10)).1) ∧
    (Axis.mk 0 0 12 2 true .AXIS_BOTTOM 0).GetWindowBounds (0, 10) = (12, 10) ∧
    ¬ (((Axis.mk 0 0 12 2 true .AXIS_BOTTOM 0).GetWindowBounds (0, 10)).1 ≤
        ((Axis.mk 0 0 12 2 true .AXIS_BOTTOM 0).GetWindowBounds (0, 10)).2) := by
  norm_num [Axis.GetWindowBounds, wxMin]

/-- C2 (amended): with the window in use, `winMin` is the stored position and
`winMax ≤ dataMax`; when moreover the stored position lies inside the data bounds,
`dataMin ≤ winPos ≤ dataMax`, and the stored width is not negative, the returned
bounds satisfy `dataMin ≤ winMin ≤ winMax ≤ dataMax`. -/
theorem C2_window_subset_amended (ax : Axis) (dataMin dataMax : ℚ)
    (hwin : ax.m_useWin = true) :
    (ax.GetWindowBounds (dataMin, dataMax)).1 = ax.m_winPos ∧
    (ax.GetWindowBounds (dataMin, dataMax)).2 ≤ dataMax ∧
    (dataMin ≤ ax.m_winPos → ax.m_winPos ≤ dataMax → 0 ≤ ax.m_winWidth →
      dataMin ≤ (ax.GetWindowBounds (dataMin, dataMax)).1 ∧
      (ax.GetWindowBounds (dataMin, dataMax)).1 ≤ (ax.GetWindowBounds (dataMin, dataMax)).2 ∧
      (ax.GetWindowBounds (dataMin, dataMax)).2 ≤ dataMax) := by
  refine ⟨?_, GetWindowBounds_snd_le ax dataMin dataMax, ?_⟩
  · rw [GetWindowBounds_eq, if_pos hwin]
  · intro h1 h2 h3
    exact (GetWindowBounds_inside_iff ax dataMin dataMax hwin).mpr ⟨h1, h2, h3⟩

/-- Witness of the C2 theorem: position `2`, width `5`, data bounds
`(0, 4)`; the window is `(2, 4)`. -/
theorem C2_window_subset_amended_witness :
    (Axis.mk 0 0 2 5 true .AXIS_BOTTOM 0).GetWindowBounds (0, 4) = (2, 4) ∧
    ((0 : ℚ) ≤ ((Axis.mk 0 0 2 5 true .AXIS_BOTTOM 0).GetWindowBounds (0, 4)).1 ∧
      ((Axis.mk 0 0 2 5 true .AXIS_BOTTOM 0).GetWindowBounds (0, 4)).1 ≤
        ((Axis.mk 0 0 2 5 true .AXIS_BOTTOM 0).GetWindowBounds (0, 4)).2 ∧
      ((Axis.mk 0 0 2 5 true .AXIS_BOTTOM 0).GetWindowBounds (0, 4)).2 ≤ (4 : ℚ)) :=
  ⟨by norm_num [Axis.GetWindowBounds, wxMin],
   (C2_window_subset_amended (Axis.mk 0 0 2 5 true .AXIS_BOTTOM 0) 0 4 rfl).2.2
     (by norm_num) (by norm_num) (by norm_num)⟩

/-- `Axis::SetWindow` stores both arguments and nothing else. -/
theorem SetWindow_eq (ax : Axis) (p w : ℚ) :
    ax.SetWindow p w = { ax with m_winPos := p, m_winWidth := w } := by
  unfold Axis.SetWindow
  split_ifs with h
  · rfl
  · push_neg at h
    obtain ⟨h1, h2⟩ := h
    subst h1 h2
    rfl

/-- C6: `SetWindowPosition p` makes `GetWindowPosition` return `p` and keeps the
width and the use-window flag; `SetWindowWidth w` makes `GetWindowWidth` return `w`
and keeps the position and the flag; `SetWindow p w` makes the getters return `p`
and `w` and keeps the flag. -/
theorem C6_window_setters_frame (ax : Axis) (p w : ℚ) :
    ((ax.SetWindowPosition p).GetWindowPosition = p ∧
      (ax.SetWindowPosition p).GetWindowWidth = ax.GetWindowWidth ∧
      (ax.SetWindowPosition p).m_useWin = ax.m_useWin) ∧
    ((ax.SetWindowWidth w).GetWindowWidth = w ∧
      (ax.SetWindowWidth w).GetWindowPosition = ax.GetWindowPosition ∧
      (ax.SetWindowWidth w).m_useWin = ax.m_useWin) ∧
    ((ax.SetWindow p w).GetWindowPosition = p ∧
      (ax.SetWindow p w).GetWindowWidth = w ∧
      (ax.SetWindow p w).m_useWin = ax.m_useWin) := by
  simp [Axis.SetWindowPosition, Axis.SetWindowWidth, SetWindow_eq,
    Axis.GetWindowPosition, Axis.GetWindowWidth]

/-- C7: for each of the four locations, `IsVertical` holds exactly for `AXIS_LEFT`
and `AXIS_RIGHT`, `IsHorizontal` exactly for `AXIS_TOP` and `AXIS_BOTTOM`, and
exactly one of the two holds. -/
theorem C7_vertical_horizontal (ax : Axis) :
    (ax.IsVertical = true ↔
      (ax.GetLocation = .AXIS_LEFT ∨ ax.GetLocation = .AXIS_RIGHT)) ∧
    (ax.IsHorizontal = true ↔
      (ax.GetLocation = .AXIS_TOP ∨ ax.GetLocation = .AXIS_BOTTOM)) ∧
    ((ax.IsVertical = true ∧ ax.IsHorizontal = false) ∨
      (ax.IsVertical = false ∧ ax.IsHorizontal = true)) := by
  obtain ⟨mn, mx, wp, ww, uw, loc, sc⟩ := ax
  cases loc <;> simp [Axis.IsVertical, Axis.IsHorizontal, Axis.GetLocation]

/-! ## Theorems about the series pens and brushes -/

/-- The calls leave the default pen width, pen style and brush style as they are. -/
theorem calls_defaults (cs : List RendererCall) (rd : XYZRenderer) :
    (rd.calls cs).m_defaultPenWidth = rd.m_defaultPenWidth ∧
    (rd.calls cs).m_defaultPenStyle = rd.m_defaultPenStyle ∧
    (rd.calls cs).m_defaultBrushStyle = rd.m_defaultBrushStyle ∧
    (rd.calls cs).m_minRad = rd.m_minRad ∧ (rd.calls cs).m_maxRad = rd.m_maxRad := by
  induction cs generalizing rd with
  | nil => simp [XYZRenderer.calls]
  | cons c cs ih =>
    have h := ih (rd.call c)
    simp only [XYZRenderer.calls, List.foldl_cons] at h ⊢
    cases c <;> exact h

/-- The pen table after a sequence of calls on a renderer with the defaults of the
constructor: the pen last stored, or else the entry it had before. -/
theorem calls_seriePens (cs : List RendererCall) (rd : XYZRenderer)
    (hw : rd.m_defaultPenWidth = 1) (hs : rd.m_defaultPenStyle = .wxPENSTYLE_SOLID)
    (s : Nat) :
    (rd.calls cs).m_seriePens s =
      match lastStoredPen s cs with
      | some pen => some pen
      | none => rd.m_seriePens s := by
  induction cs generalizing rd with
  | nil => simp [XYZRenderer.calls, lastStoredPen]
  | cons c cs ih =>
    have hd := calls_defaults [c] rd
    simp only [XYZRenderer.calls, List.foldl_cons, List.foldl_nil] at hd
    have h := ih (rd.call c) (by rw [hd.1, hw]) (by rw [hd.2.1, hs])
    simp only [XYZRenderer.calls, List.foldl_cons] at h ⊢
    rw [h]
    clear h hd ih
    simp only [lastStoredPen]
    cases lastStoredPen s cs with
    | some pen => rfl
    | none =>
      cases c <;>
        simp only [XYZRenderer.call, XYZRenderer.SetSeriePen, XYZRenderer.SetSerieBrush,
          XYZRenderer.SetSerieColor, wxHashMap.set, RendererCall.storedPen, FindOrCreatePen,
          hw, hs] <;>
        split_ifs <;> first | rfl | omega

/-- The brush table after a sequence of calls on a renderer with the defaults of the
constructor: the brush last stored, or else the entry it had before. -/
theorem calls_serieBrushs (cs : List RendererCall) (rd : XYZRenderer)
    (hs : rd.m_defaultBrushStyle = .wxBRUSHSTYLE_SOLID) (s : Nat) :
    (rd.calls cs).m_serieBrushs s =
      match lastStoredBrush s cs with
      | some brush => some brush
      | none => rd.m_serieBrushs s := by
  induction cs generalizing rd with
  | nil => simp [XYZRenderer.calls, lastStoredBrush]
  | cons c cs ih =>
    have hd := calls_defaults [c] rd
    simp only [XYZRenderer.calls, List.foldl_cons, List.foldl_nil] at hd
    have h := ih (rd.call c) (by rw [hd.2.2.1, hs])
    simp only [XYZRenderer.calls, List.foldl_cons] at h ⊢
    rw [h]
    clear h hd ih
    simp only [lastStoredBrush]
    cases lastStoredBrush s cs with
    | some brush => rfl
    | none =>
      cases c <;>
        simp only [XYZRenderer.call, XYZRenderer.SetSeriePen, XYZRenderer.SetSerieBrush,
          XYZRenderer.SetSerieColor, wxHashMap.set, RendererCall.storedBrush,
          FindOrCreateBrush, hs] <;>
        split_ifs <;> first | rfl | omega

/-- C4: on a renderer built by the constructor and changed by any sequence of calls,
`GetSeriePen s` is the pen last stored for `s` through `SetSeriePen`, or else the
solid pen of width 1 of `GetDefaultColour s`; `GetSerieBrush s` is the brush last
stored for `s` through `SetSerieBrush`, or else the solid brush of
`GetDefaultColour s`; `GetSerieColor s` is the colour of the stored brush, or else
`GetDefaultColour s`. -/
theorem C4_getters_stored_or_default (GetDefaultColour : Nat → wxColour)
    (minRad maxRad : Int) (cs : List RendererCall) (s : Nat) :
    ((XYZRenderer.new minRad maxRad).calls cs).GetSeriePen GetDefaultColour s =
      (match lastStoredPen s cs with
       | some pen => pen
       | none =>
         { colour := GetDefaultColour s, width := 1, style := .wxPENSTYLE_SOLID }) ∧
    ((XYZRenderer.new minRad maxRad).calls cs).GetSerieBrush GetDefaultColour s =
      (match lastStoredBrush s cs with
       | some brush => brush
       | none => { colour := GetDefaultColour s, style := .wxBRUSHSTYLE_SOLID }) ∧
    ((XYZRenderer.new minRad maxRad).calls cs).GetSerieColor GetDefaultColour s =
      (match lastStoredBrush s cs with
       | some brush => brush.colour
       | none => GetDefaultColour s) := by
  have hd := calls_defaults cs (XYZRenderer.new minRad maxRad)
  have hp := calls_seriePens cs (XYZRenderer.new minRad maxRad) rfl rfl s
  have hb := calls_serieBrushs cs (XYZRenderer.new minRad maxRad) rfl s
  refine ⟨?_, ?_, ?_⟩
  · unfold XYZRenderer.GetSeriePen
    rw [hp, hd.1, hd.2.1]
    cases lastStoredPen s cs <;> simp [XYZRenderer.new, FindOrCreatePen]
  · unfold XYZRenderer.GetSerieBrush
    rw [hb, hd.2.2.1]
    cases lastStoredBrush s cs <;> simp [XYZRenderer.new, FindOrCreateBrush]
  · unfold XYZRenderer.GetSerieColor
    rw [hb]
    cases lastStoredBrush s cs <;> simp [XYZRenderer.new, wxBrush.GetColour]

/-- C5: after `SetSerieColor s c`, `GetSerieColor s` and the colours of
`GetSeriePen s` and of `GetSerieBrush s` are `c`, and for every other series the
three getters return what they returned before. -/
theorem C5_SetSerieColor_round_trip (GetDefaultColour : Nat → wxColour)
    (rd : XYZRenderer) (s : Nat) (c : wxColour) :
    (rd.SetSerieColor s c).GetSerieColor GetDefaultColour s = c ∧
    ((rd.SetSerieColor s c).GetSeriePen GetDefaultColour s).GetColour = c ∧
    ((rd.SetSerieColor s c).GetSerieBrush GetDefaultColour s).GetColour = c ∧
    ∀ t : Nat, t ≠ s →
      (rd.SetSerieColor s c).GetSerieColor GetDefaultColour t =
        rd.GetSerieColor GetDefaultColour t ∧
      (rd.SetSerieColor s c).GetSeriePen GetDefaultColour t =
        rd.GetSeriePen GetDefaultColour t ∧
      (rd.SetSerieColor s c).GetSerieBrush GetDefaultColour t =
        rd.GetSerieBrush GetDefaultColour t := by
  refine ⟨?_, ?_, ?_, ?_⟩
  · simp [XYZRenderer.SetSerieColor, XYZRenderer.SetSeriePen, XYZRenderer.SetSerieBrush,
      XYZRenderer.GetSerieColor, wxHashMap.set, FindOrCreateBrush, wxBrush.GetColour]
  · simp [XYZRenderer.SetSerieColor, XYZRenderer.SetSeriePen, XYZRenderer.SetSerieBrush,
      XYZRenderer.GetSeriePen, wxHashMap.set, FindOrCreatePen, wxPen.GetColour]
  · simp [XYZRenderer.SetSerieColor, XYZRenderer.SetSeriePen, XYZRenderer.SetSerieBrush,
      XYZRenderer.GetSerieBrush, wxHashMap.set, FindOrCreateBrush, wxBrush.GetColour]
  · intro t ht
    simp [XYZRenderer.SetSerieColor, XYZRenderer.SetSeriePen, XYZRenderer.SetSerieBrush,
      XYZRenderer.GetSerieColor, XYZRenderer.GetSeriePen, XYZRenderer.GetSerieBrush,
      wxHashMap.set, ht]

/-- Witness of the C5 theorem: a new renderer, series 0 set to red;
series 1 keeps its default colour, pen and brush. -/
theorem C5_SetSerieColor_round_trip_witness :
    (1 : Nat) ≠ 0 ∧
    (((XYZRenderer.new 2 10).SetSerieColor 0 sampleRed).GetSerieColor sampleColour 1 =
        (XYZRenderer.new 2 10).GetSerieColor sampleColour 1 ∧
      ((XYZRenderer.new 2 10).SetSerieColor 0 sampleRed).GetSeriePen sampleColour 1 =
        (XYZRenderer.new 2 10).GetSeriePen sampleColour 1 ∧
      ((XYZRenderer.new 2 10).SetSerieColor 0 sampleRed).GetSerieBrush sampleColour 1 =
        (XYZRenderer.new 2 10).GetSerieBrush sampleColour 1) :=
  ⟨by decide,
   (C5_SetSerieColor_round_trip sampleColour (XYZRenderer.new 2 10) 0 sampleRed).2.2.2 1
     (by decide)⟩

/-! ## Theorems about the binary64 rounding -/

/-- Rounding leaves an integer as it is. -/
theorem roundHalfEven_intCast (n : Int) : roundHalfEven (n : ℚ) = n := by
  unfold roundHalfEven
  simp

/-- The rounded integer is not below the floor. -/
theorem floor_le_roundHalfEven (m : ℚ) : ⌊m⌋ ≤ roundHalfEven m := by
  unfold roundHalfEven
  split_ifs <;> omega

/-- The rounded integer is not above the floor plus one. -/
theorem roundHalfEven_le_floor_add_one (m : ℚ) : roundHalfEven m ≤ ⌊m⌋ + 1 := by
  unfold roundHalfEven
  split_ifs <;> omega

/-- An integer below a value is below its rounding. -/
theorem le_roundHalfEven {n : Int} {m : ℚ} (h : (n : ℚ) ≤ m) : n ≤ roundHalfEven m :=
  le_trans (Int.le_floor.mpr h) (floor_le_roundHalfEven m)

/-- An integer above a value is above its rounding. -/
theorem roundHalfEven_le {n : Int} {m : ℚ} (h : m ≤ (n : ℚ)) : roundHalfEven m ≤ n := by
  have hf : (⌊m⌋ : ℚ) ≤ m := Int.floor_le m
  unfold roundHalfEven
  split_ifs with h1 h2 h3
  · exact_mod_cast le_trans hf h
  · have : (⌊m⌋ : ℚ) < n := by linarith
    have : ⌊m⌋ < n := by exact_mod_cast this
    omega
  · exact_mod_cast le_trans hf h
  · have hm : m - ⌊m⌋ = 1 / 2 := le_antisymm (not_lt.mp h2) (not_lt.mp h1)
    have : (⌊m⌋ : ℚ) < n := by linarith
    have : ⌊m⌋ < n := by exact_mod_cast this
    omega

/-- Rounding to the nearest integer is monotone. -/
theorem roundHalfEven_mono {a b : ℚ} (h : a ≤ b) : roundHalfEven a ≤ roundHalfEven b := by
  have hfl : ⌊a⌋ ≤ ⌊b⌋ := Int.floor_mono h
  rcases lt_or_eq_of_le hfl with hlt | heq
  · calc roundHalfEven a ≤ ⌊a⌋ + 1 := roundHalfEven_le_floor_add_one a
      _ ≤ ⌊b⌋ := hlt
      _ ≤ roundHalfEven b := floor_le_roundHalfEven b
  · have hfr : a - ⌊a⌋ ≤ b - ⌊b⌋ := by rw [heq]; linarith
    unfold roundHalfEven
    rw [heq] at hfr ⊢
    split_ifs <;> first | omega | (exfalso; linarith)

/-- Rounding to the nearest integer moves a value by at most one half. -/
theorem abs_roundHalfEven_sub_le (m : ℚ) : |(roundHalfEven m : ℚ) - m| ≤ 1 / 2 := by
  have h1 : (⌊m⌋ : ℚ) ≤ m := Int.floor_le m
  have h2 : m < ⌊m⌋ + 1 := Int.lt_floor_add_one m
  rw [abs_le]
  unfold roundHalfEven
  split_ifs <;> push_cast <;> constructor <;> linarith

/-- A power of two is positive. -/
theorem two_zpow_pos (e : Int) : (0 : ℚ) < 2 ^ e := zpow_pos (by norm_num) e

/-- The exponent of the unit in the last place is at least `-1074`. -/
theorem ulpExp_ge (q : ℚ) : -1074 ≤ ulpExp q := le_max_right _ _

/-- The exponent of the unit in the last place is at least 52 below that of the value. -/
theorem log_sub_le_ulpExp (q : ℚ) : Int.log 2 |q| - 52 ≤ ulpExp q := le_max_left _ _

/-- The exponent of the unit in the last place does not decrease with the value. -/
theorem ulpExp_mono {a b : ℚ} (ha : 0 < a) (h : a ≤ b) : ulpExp a ≤ ulpExp b := by
  unfold ulpExp
  have hb : 0 < b := lt_of_lt_of_le ha h
  rw [abs_of_pos ha, abs_of_pos hb]
  have := Int.log_mono_right (b := 2) ha h
  exact max_le_max (by omega) (le_refl _)

/-- A positive value has fewer than 54 bits above its unit in the last place. -/
theorem lt_two_zpow_ulpExp {q : ℚ} (hq : 0 < q) : q < 2 ^ (ulpExp q + 53) := by
  have h1 : q < ((2 : ℕ) : ℚ) ^ (Int.log 2 q + 1) := Int.lt_zpow_succ_log_self (by norm_num) q
  have h2 : Int.log 2 q + 1 ≤ ulpExp q + 53 := by
    have := log_sub_le_ulpExp q
    rw [abs_of_pos hq] at this
    omega
  have h3 : ((2 : ℕ) : ℚ) ^ (Int.log 2 q + 1) ≤ 2 ^ (ulpExp q + 53) := by
    rw [Nat.cast_ofNat]
    exact zpow_le_zpow_right₀ (by norm_num) h2
  exact lt_of_lt_of_le h1 h3

/-- In the normal range a positive value has 53 bits above its unit in the last place. -/
theorem two_zpow_le_of_ulpExp {q : ℚ} (hq : 0 < q) (h : ulpExp q = Int.log 2 q - 52) :
    (2 : ℚ) ^ (ulpExp q + 52) ≤ q := by
  have h1 : ((2 : ℕ) : ℚ) ^ Int.log 2 q ≤ q := Int.zpow_log_le_self (by norm_num) hq
  rw [Nat.cast_ofNat] at h1
  have : ulpExp q + 52 = Int.log 2 q := by omega
  rw [this]
  exact h1

/-- Zero rounds to zero. -/
theorem roundToGrid_zero : roundToGrid 0 = 0 := by
  unfold roundToGrid
  rw [zero_div]
  have := roundHalfEven_intCast 0
  simp only [Int.cast_zero] at this
  rw [this]
  simp

/-- The rounding of a value that is not negative is not negative. -/
theorem roundToGrid_nonneg {q : ℚ} (hq : 0 ≤ q) : 0 ≤ roundToGrid q := by
  unfold roundToGrid
  have h1 : (0 : ℚ) ≤ q / 2 ^ ulpExp q := div_nonneg hq (two_zpow_pos _).le
  have h2 : (0 : Int) ≤ roundHalfEven (q / 2 ^ ulpExp q) :=
    le_roundHalfEven (by simpa using h1)
  have h3 : (0 : ℚ) ≤ (roundHalfEven (q / 2 ^ ulpExp q) : ℚ) := by exact_mod_cast h2
  exact mul_nonneg h3 (two_zpow_pos _).le

/-- The rounding of a positive value stays in its binade, upper end. -/
theorem roundToGrid_le_two_zpow {q : ℚ} (hq : 0 < q) :
    roundToGrid q ≤ 2 ^ (ulpExp q + 53) := by
  unfold roundToGrid
  have hp := two_zpow_pos (ulpExp q)
  have h1 : q / 2 ^ ulpExp q ≤ ((2 ^ 53 : Int) : ℚ) := by
    rw [div_le_iff₀ hp]
    have := (lt_two_zpow_ulpExp hq).le
    rw [zpow_add₀ (by norm_num : (2 : ℚ) ≠ 0)] at this
    push_cast
    have e : (2 : ℚ) ^ (53 : Int) = 2 ^ 53 := by norm_cast
    rw [e] at this
    linarith
  have h2 : roundHalfEven (q / 2 ^ ulpExp q) ≤ (2 ^ 53 : Int) := roundHalfEven_le h1
  have h3 : (roundHalfEven (q / 2 ^ ulpExp q) : ℚ) ≤ 2 ^ 53 := by exact_mod_cast h2
  rw [zpow_add₀ (by norm_num : (2 : ℚ) ≠ 0)]
  have e : (2 : ℚ) ^ (53 : Int) = 2 ^ 53 := by norm_cast
  rw [e, mul_comm ((2 : ℚ) ^ ulpExp q)]
  exact mul_le_mul_of_nonneg_right h3 hp.le

/-- The rounding of a positive value stays in its binade, lower end. -/
theorem two_zpow_le_roundToGrid {q : ℚ} (hq : 0 < q) (h : ulpExp q = Int.log 2 q - 52) :
    (2 : ℚ) ^ (ulpExp q + 52) ≤ roundToGrid q := by
  unfold roundToGrid
  have hp := two_zpow_pos (ulpExp q)
  have e : (2 : ℚ) ^ (52 : Int) = 2 ^ 52 := by norm_cast
  have h1 : ((2 ^ 52 : Int) : ℚ) ≤ q / 2 ^ ulpExp q := by
    rw [le_div_iff₀ hp]
    have := two_zpow_le_of_ulpExp hq h
    rw [zpow_add₀ (by norm_num : (2 : ℚ) ≠ 0), e] at this
    push_cast
    linarith
  have h2 : (2 ^ 52 : Int) ≤ roundHalfEven (q / 2 ^ ulpExp q) := le_roundHalfEven h1
  have h3 : (2 ^ 52 : ℚ) ≤ (roundHalfEven (q / 2 ^ ulpExp q) : ℚ) := by exact_mod_cast h2
  rw [zpow_add₀ (by norm_num : (2 : ℚ) ≠ 0), e, mul_comm ((2 : ℚ) ^ ulpExp q)]
  exact mul_le_mul_of_nonneg_right h3 hp.le

/-- Rounding to the grid is monotone on positive values. -/
theorem roundToGrid_mono_pos {a b : ℚ} (ha : 0 < a) (h : a ≤ b) :
    roundToGrid a ≤ roundToGrid b := by
  have hb : 0 < b := lt_of_lt_of_le ha h
  have hpe := ulpExp_mono ha h
  rcases lt_or_eq_of_le hpe with hlt | heq
  · have hge := ulpExp_ge a
    have hbl : ulpExp b = Int.log 2 b - 52 := by
      have : ulpExp b = max (Int.log 2 b - 52) (-1074) := by
        unfold ulpExp
        rw [abs_of_pos hb]
      rw [this] at hlt ⊢
      rcases max_cases (Int.log 2 b - 52) (-1074) with ⟨h1, _⟩ | ⟨h1, _⟩
      · exact h1
      · omega
    calc roundToGrid a ≤ 2 ^ (ulpExp a + 53) := roundToGrid_le_two_zpow ha
      _ ≤ 2 ^ (ulpExp b + 52) := zpow_le_zpow_right₀ (by norm_num) (by omega)
      _ ≤ roundToGrid b := two_zpow_le_roundToGrid hb hbl
  · unfold roundToGrid
    rw [heq]
    have hp := two_zpow_pos (ulpExp b)
    have h1 : a / 2 ^ ulpExp b ≤ b / 2 ^ ulpExp b := div_le_div_of_nonneg_right h hp.le
    have h2 := roundHalfEven_mono h1
    have h3 : (roundHalfEven (a / 2 ^ ulpExp b) : ℚ) ≤ (roundHalfEven (b / 2 ^ ulpExp b) : ℚ) := by
      exact_mod_cast h2
    exact mul_le_mul_of_nonneg_right h3 hp.le

/-- Rounding to the grid is monotone on values that are not negative. -/
theorem roundToGrid_mono {a b : ℚ} (ha : 0 ≤ a) (h : a ≤ b) :
    roundToGrid a ≤ roundToGrid b := by
  rcases eq_or_lt_of_le ha with h0 | hpos
  · rw [← h0, roundToGrid_zero]
    exact roundToGrid_nonneg (le_trans ha h)
  · exact roundToGrid_mono_pos hpos h

/-- Rounding to the grid moves a value by at most half a unit in the last place. -/
theorem abs_roundToGrid_sub_le (q : ℚ) : |roundToGrid q - q| ≤ 2 ^ ulpExp q / 2 := by
  unfold roundToGrid
  have hp := two_zpow_pos (ulpExp q)
  have h := abs_roundHalfEven_sub_le (q / 2 ^ ulpExp q)
  have e : (roundHalfEven (q / 2 ^ ulpExp q) : ℚ) * 2 ^ ulpExp q - q =
      ((roundHalfEven (q / 2 ^ ulpExp q) : ℚ) - q / 2 ^ ulpExp q) * 2 ^ ulpExp q := by
    field_simp
  rw [e, abs_mul, abs_of_pos hp]
  calc |(roundHalfEven (q / 2 ^ ulpExp q) : ℚ) - q / 2 ^ ulpExp q| * 2 ^ ulpExp q
      ≤ 1 / 2 * 2 ^ ulpExp q := mul_le_mul_of_nonneg_right h hp.le
    _ = 2 ^ ulpExp q / 2 := by ring

/-- A value of the grid rounds to itself. -/
theorem roundToGrid_grid (m e : Int) (hm : m.natAbs < 2 ^ 53) (he : -1074 ≤ e) :
    roundToGrid ((m : ℚ) * 2 ^ e) = (m : ℚ) * 2 ^ e := by
  rcases eq_or_ne m 0 with h0 | hne
  · rw [h0]
    simp [roundToGrid_zero]
  have hpe : ulpExp ((m : ℚ) * 2 ^ e) ≤ e := by
    unfold ulpExp
    apply max_le _ he
    have habs : |(m : ℚ) * 2 ^ e| = |(m : ℚ)| * 2 ^ e := by
      rw [abs_mul, abs_of_pos (two_zpow_pos e)]
    have hmpos : (0 : ℚ) < |(m : ℚ)| := abs_pos.mpr (by exact_mod_cast hne)
    have hpos : (0 : ℚ) < |(m : ℚ) * 2 ^ e| := by
      rw [habs]
      exact mul_pos hmpos (two_zpow_pos e)
    have hlt : |(m : ℚ) * 2 ^ e| < ((2 : ℕ) : ℚ) ^ (e + 53) := by
      rw [habs, Nat.cast_ofNat, zpow_add₀ (by norm_num : (2 : ℚ) ≠ 0), mul_comm]
      have e53 : (2 : ℚ) ^ (53 : Int) = 2 ^ 53 := by norm_cast
      rw [e53]
      have hm2 : |(m : ℚ)| < 2 ^ 53 := by
        have : ((m.natAbs : Int) : ℚ) = |(m : ℚ)| := by
          rw [Int.natCast_natAbs, Int.cast_abs]
        rw [← this]
        have : (m.natAbs : Int) < 2 ^ 53 := by exact_mod_cast hm
        exact_mod_cast this
      exact mul_lt_mul_of_pos_left hm2 (two_zpow_pos e)
    have := (Int.lt_zpow_iff_log_lt (b := 2) (by norm_num) hpos).mp hlt
    omega
  unfold roundToGrid
  set p := ulpExp ((m : ℚ) * 2 ^ e) with hp
  have hk : (0 : Int) ≤ e - p := by omega
  have hdiv : (m : ℚ) * 2 ^ e / 2 ^ p = ((m * 2 ^ (e - p).toNat : Int) : ℚ) := by
    rw [mul_div_assoc, ← zpow_sub₀ (by norm_num : (2 : ℚ) ≠ 0)]
    push_cast
    congr 1
    rw [← zpow_natCast]
    congr 1
    omega
  rw [hdiv, roundHalfEven_intCast]
  rw [← hdiv]
  field_simp

/-- The unit in the last place of a positive value is at most `2 ^ (-52)` times the value, or the least positive `double`. -/
theorem two_zpow_ulpExp_le {x : ℚ} (hx : 0 < x) :
    (2 : ℚ) ^ ulpExp x ≤ x / 2 ^ 52 + 2 ^ (-1074 : Int) := by
  have hmin : (0 : ℚ) < 2 ^ (-1074 : Int) := two_zpow_pos _
  have hx52 : (0 : ℚ) ≤ x / 2 ^ 52 := by positivity
  have hcases : ulpExp x = Int.log 2 x - 52 ∨ ulpExp x = -1074 := by
    unfold ulpExp
    rw [abs_of_pos hx]
    rcases max_cases (Int.log 2 x - 52) (-1074) with ⟨h1, _⟩ | ⟨h1, _⟩
    · exact Or.inl h1
    · exact Or.inr h1
  rcases hcases with h | h
  · have h1 := two_zpow_le_of_ulpExp hx h
    rw [zpow_add₀ (by norm_num : (2 : ℚ) ≠ 0)] at h1
    have e : (2 : ℚ) ^ (52 : Int) = 2 ^ 52 := by norm_cast
    rw [e] at h1
    have : (2 : ℚ) ^ ulpExp x ≤ x / 2 ^ 52 := by
      rw [le_div_iff₀ (by positivity)]
      exact h1
    linarith
  · rw [h]
    linarith

/-- The largest finite `double` times the least positive one is at most `2 ^ (-50)`. -/
theorem maxFinite_mul_min : maxFinite * 2 ^ (-1074 : Int) ≤ 1 / 2 ^ 50 := by
  have e : (2 : ℚ) ^ (-1074 : Int) = 1 / 2 ^ 1074 := by
    rw [zpow_neg, one_div]
    norm_cast
  rw [e]
  unfold maxFinite
  rw [mul_one_div, div_le_div_iff₀ (by positivity) (by positivity)]
  have : (2 : ℚ) ^ 1074 = 2 ^ 53 * 2 ^ 971 * 2 ^ 50 := by
    rw [← pow_add, ← pow_add]
  rw [this]
  have h971 : (0 : ℚ) < 2 ^ 971 := by positivity
  have h50 : (0 : ℚ) < 2 ^ 50 := by positivity
  nlinarith [mul_pos h971 h50]

/-- The scale factor times the range differs from the difference of the radii by at most one half. -/
theorem scale_error {R D : ℚ} (hR0 : 0 ≤ R) (hR : R ≤ 2 ^ 32) (hD0 : 0 < D)
    (hD : D ≤ maxFinite) : |D * roundToGrid (R / D) - R| ≤ 1 / 2 := by
  rcases eq_or_lt_of_le hR0 with h0 | hpos
  · rw [← h0]
    simp [roundToGrid_zero]
  have hx : 0 < R / D := div_pos hpos hD0
  have herr := abs_roundToGrid_sub_le (R / D)
  have hulp := two_zpow_ulpExp_le hx
  have hmm := maxFinite_mul_min
  have hmin : (0 : ℚ) < 2 ^ (-1074 : Int) := two_zpow_pos _
  have e : D * roundToGrid (R / D) - R = D * (roundToGrid (R / D) - R / D) := by
    field_simp
    ring
  rw [e, abs_mul, abs_of_pos hD0]
  have h1 : D * |roundToGrid (R / D) - R / D| ≤ D * ((R / D / 2 ^ 52 + 2 ^ (-1074 : Int)) / 2) :=
    mul_le_mul_of_nonneg_left (by linarith) hD0.le
  have h2 : D * ((R / D / 2 ^ 52 + 2 ^ (-1074 : Int)) / 2) =
      R / 2 ^ 53 + D * 2 ^ (-1074 : Int) / 2 := by
    field_simp
    ring
  have h3 : D * 2 ^ (-1074 : Int) ≤ maxFinite * 2 ^ (-1074 : Int) :=
    mul_le_mul_of_nonneg_right hD hmin.le
  have h4 : R / 2 ^ 53 ≤ 2 ^ 32 / 2 ^ 53 := div_le_div_of_nonneg_right hR (by positivity)
  have h5 : (2 : ℚ) ^ 32 / 2 ^ 53 + 1 / 2 ^ 50 / 2 ≤ 1 / 2 := by norm_num
  linarith

/-- An integer below `2 ^ 53` in magnitude rounds to itself. -/
theorem roundToGrid_int (n : Int) (hn : n.natAbs < 2 ^ 53) : roundToGrid (n : ℚ) = n := by
  have := roundToGrid_grid n 0 hn (by norm_num)
  simpa using this

/-- A half-integer below `2 ^ 52` in magnitude rounds to itself. -/
theorem roundToGrid_half (n : Int) (hn : n.natAbs < 2 ^ 52) :
    roundToGrid ((n : ℚ) + 1 / 2) = (n : ℚ) + 1 / 2 := by
  have h := roundToGrid_grid (2 * n + 1) (-1) (by omega) (by norm_num)
  have e : ((2 * n + 1 : Int) : ℚ) * 2 ^ (-1 : Int) = (n : ℚ) + 1 / 2 := by
    rw [zpow_neg, zpow_one]
    push_cast
    ring
  rwa [e] at h

/-- The largest finite `double` is at least `2 ^ 53`. -/
theorem two_pow_53_le_maxFinite : (2 : ℚ) ^ 53 ≤ maxFinite := by
  unfold maxFinite
  have h : (2 : ℚ) ^ 2 ≤ 2 ^ 971 := pow_le_pow_right₀ (by norm_num) (by norm_num)
  nlinarith

/-- An operation gives the finite `double` `x` exactly when `x` is its rounded result and does not overflow. -/
theorem Double.round_eq_finite_iff (q x : ℚ) :
    Double.round q = Double.finite x ↔ x = roundToGrid q ∧ |roundToGrid q| ≤ maxFinite := by
  unfold Double.round
  split_ifs with h
  · constructor
    · intro heq
      injection heq with heq
      exact ⟨heq.symm, h⟩
    · rintro ⟨h1, _⟩
      rw [h1]
  · constructor
    · intro heq
      exact absurd heq (by simp)
    · rintro ⟨_, h2⟩
      exact absurd h2 h

/-- The rounding of a value that is not negative and does not overflow. -/
theorem Double.round_of_le {q : ℚ} (hq : 0 ≤ q) (h : roundToGrid q ≤ maxFinite) :
    Double.round q = Double.finite (roundToGrid q) := by
  rw [Double.round_eq_finite_iff]
  exact ⟨rfl, by rw [abs_of_nonneg (roundToGrid_nonneg hq)]; exact h⟩

/-- A rounding is not above an integer above the value. -/
theorem roundToGrid_le_int {q : ℚ} (hq : 0 ≤ q) (n : Int) (hn : n.natAbs < 2 ^ 53)
    (h : q ≤ (n : ℚ)) : roundToGrid q ≤ (n : ℚ) := by
  have := roundToGrid_mono hq h
  rwa [roundToGrid_int n hn] at this

/-- A rounding is not below a natural number below the value. -/
theorem int_le_roundToGrid {q : ℚ} (n : Int) (h0 : 0 ≤ n) (hn : n.natAbs < 2 ^ 53)
    (h : (n : ℚ) ≤ q) : (n : ℚ) ≤ roundToGrid q := by
  have := roundToGrid_mono (by exact_mod_cast h0) h
  rwa [roundToGrid_int n hn] at this

/-- A rounding is not above a half-integer above the value. -/
theorem roundToGrid_le_half {q : ℚ} (hq : 0 ≤ q) (n : Int) (hn : n.natAbs < 2 ^ 52)
    (h : q ≤ (n : ℚ) + 1 / 2) : roundToGrid q ≤ (n : ℚ) + 1 / 2 := by
  have := roundToGrid_mono hq h
  rwa [roundToGrid_half n hn] at this

/-- A rounding is not below a half-integer below the value. -/
theorem half_le_roundToGrid {q : ℚ} (n : Int) (h0 : 0 ≤ n) (hn : n.natAbs < 2 ^ 52)
    (h : (n : ℚ) + 1 / 2 ≤ q) : (n : ℚ) + 1 / 2 ≤ roundToGrid q := by
  have hn0 : (0 : ℚ) ≤ (n : ℚ) := by exact_mod_cast h0
  have := roundToGrid_mono (by linarith) h
  rwa [roundToGrid_half n hn] at this

/-- A finite `double` rounds to itself. -/
theorem FiniteDouble.roundToGrid_val (d : FiniteDouble) : roundToGrid d.val = d.val :=
  roundToGrid_grid d.mant d.expo d.mant_lt d.expo_ge

/-- A finite `double` does not exceed the largest one in magnitude. -/
theorem FiniteDouble.abs_val_le (d : FiniteDouble) : |d.val| ≤ maxFinite := by
  unfold FiniteDouble.val maxFinite
  rw [abs_mul, abs_of_pos (two_zpow_pos _)]
  have hm : |(d.mant : ℚ)| ≤ 2 ^ 53 - 1 := by
    have h1 : ((d.mant.natAbs : Int) : ℚ) = |(d.mant : ℚ)| := by
      rw [Int.natCast_natAbs, Int.cast_abs]
    rw [← h1]
    have h2 : (d.mant.natAbs : Int) ≤ 2 ^ 53 - 1 := by
      have := d.mant_lt
      omega
    exact_mod_cast h2
  have he : (2 : ℚ) ^ d.expo ≤ 2 ^ 971 := by
    have : (2 : ℚ) ^ d.expo ≤ 2 ^ ((971 : ℕ) : Int) :=
      zpow_le_zpow_right₀ (by norm_num) (by simpa using d.expo_le)
    rwa [zpow_natCast] at this
  exact mul_le_mul hm he (two_zpow_pos _).le (by norm_num)

/-- A finite `double` is an integer multiple of the least positive one. -/
theorem FiniteDouble.exists_int (d : FiniteDouble) :
    ∃ n : Int, d.val = (n : ℚ) * 2 ^ (-1074 : Int) := by
  refine ⟨d.mant * 2 ^ (d.expo + 1074).toNat, ?_⟩
  unfold FiniteDouble.val
  have h := d.expo_ge
  push_cast
  rw [mul_assoc, ← zpow_natCast, ← zpow_add₀ (by norm_num : (2 : ℚ) ≠ 0)]
  congr 2
  omega

/-- Two different finite `double`s differ by at least the least positive one. -/
theorem FiniteDouble.min_le_sub {a b : FiniteDouble} (h : b.val < a.val) :
    (2 : ℚ) ^ (-1074 : Int) ≤ a.val - b.val := by
  obtain ⟨na, ha⟩ := a.exists_int
  obtain ⟨nb, hb⟩ := b.exists_int
  have hp := two_zpow_pos (-1074)
  rw [ha, hb] at h ⊢
  have hlt : (nb : ℚ) < na := lt_of_mul_lt_mul_right h hp.le
  have hlt2 : nb < na := by exact_mod_cast hlt
  have hle : (nb : ℚ) + 1 ≤ na := by exact_mod_cast hlt2
  nlinarith

/-- The rounded difference of a larger and a smaller finite `double` is positive. -/
theorem roundToGrid_sub_pos {a b : FiniteDouble} (h : b.val < a.val) :
    0 < roundToGrid (a.val - b.val) := by
  have h1 := FiniteDouble.min_le_sub h
  have h2 := roundToGrid_mono (two_zpow_pos (-1074)).le h1
  have h3 := roundToGrid_grid 1 (-1074) (by norm_num) (by norm_num)
  simp only [Int.cast_one, one_mul] at h3
  rw [h3] at h2
  exact lt_of_lt_of_le (two_zpow_pos _) h2

/-- The conversion of an `int` to `double` is exact. -/
theorem Double.ofInt_eq (n : Int) (hn : n.natAbs < 2 ^ 53) :
    Double.ofInt n = Double.finite (n : ℚ) := by
  unfold Double.ofInt
  rw [Double.round_eq_finite_iff, roundToGrid_int n hn]
  refine ⟨rfl, le_trans ?_ two_pow_53_le_maxFinite⟩
  have h1 : ((n.natAbs : Int) : ℚ) = |(n : ℚ)| := by
    rw [Int.natCast_natAbs, Int.cast_abs]
  rw [← h1]
  have h2 : (n.natAbs : Int) ≤ 2 ^ 53 := by omega
  exact_mod_cast h2

/-- The `int` subtraction of operands in range whose difference is in range. -/
theorem intSub_eq {a b : Int} (ha : INT_MIN ≤ a ∧ a ≤ INT_MAX) (hb : INT_MIN ≤ b ∧ b ≤ INT_MAX)
    (hab : INT_MIN ≤ a - b ∧ a - b ≤ INT_MAX) : intSub a b = some (a - b) := by
  unfold intSub
  rw [if_pos ⟨ha.1, ha.2, hb.1, hb.2, hab.1, hab.2⟩]

/-- The facts the hypotheses of the bound give about the divisor and the scale factor. -/
theorem Draw_k_facts (rd : XYZRenderer) (minZ maxZ : FiniteDouble)
    (h0 : 0 ≤ rd.m_minRad) (hrad : rd.m_minRad ≤ rd.m_maxRad) (hmax : rd.m_maxRad ≤ INT_MAX)
    (hlt : minZ.val < maxZ.val) (D k : ℚ)
    (hD : Double.sub maxZ.toDouble minZ.toDouble = Double.finite D)
    (hk : XYZRenderer.Draw.k rd minZ maxZ = some (Double.finite k)) :
    D = roundToGrid (maxZ.val - minZ.val) ∧ 0 < D ∧ D ≤ maxFinite ∧ 0 ≤ k ∧
    |D * k - ((rd.m_maxRad - rd.m_minRad : Int) : ℚ)| ≤ 1 / 2 := by
  have hIm : INT_MIN = -2147483648 := rfl
  have hIM : INT_MAX = 2147483647 := rfl
  simp only [Double.sub, FiniteDouble.toDouble, Double.round_eq_finite_iff] at hD
  obtain ⟨hD1, hD2⟩ := hD
  have hDpos : 0 < D := by
    rw [hD1]
    exact roundToGrid_sub_pos hlt
  have hDle : D ≤ maxFinite := by
    rw [hD1]
    exact le_trans (le_abs_self _) hD2
  have hR : intSub rd.m_maxRad rd.m_minRad = some (rd.m_maxRad - rd.m_minRad) :=
    intSub_eq (by omega) (by omega) (by omega)
  have hofInt : Double.ofInt (rd.m_maxRad - rd.m_minRad) =
      Double.finite ((rd.m_maxRad - rd.m_minRad : Int) : ℚ) :=
    Double.ofInt_eq _ (by omega)
  have hsub : Double.sub maxZ.toDouble minZ.toDouble = Double.finite D := by
    simp only [Double.sub, FiniteDouble.toDouble, Double.round_eq_finite_iff]
    exact ⟨hD1, hD2⟩
  unfold XYZRenderer.Draw.k at hk
  rw [hR, Option.map_some', hofInt, hsub] at hk
  simp only [Double.div, if_neg hDpos.ne', Option.some.injEq,
    Double.round_eq_finite_iff] at hk
  obtain ⟨hk1, _⟩ := hk
  have hR0 : (0 : ℚ) ≤ ((rd.m_maxRad - rd.m_minRad : Int) : ℚ) := by
    have : (0 : Int) ≤ rd.m_maxRad - rd.m_minRad := by omega
    exact_mod_cast this
  have hR32 : ((rd.m_maxRad - rd.m_minRad : Int) : ℚ) ≤ 2 ^ 32 := by
    have : rd.m_maxRad - rd.m_minRad ≤ 2 ^ 32 := by omega
    exact_mod_cast this
  refine ⟨hD1, hDpos, hDle, ?_, ?_⟩
  · rw [hk1]
    exact roundToGrid_nonneg (div_nonneg hR0 hDpos.le)
  · rw [hk1]
    exact scale_error hR0 hR32 hDpos hDle

/-- Under the hypotheses of the bound, the radius of an item inside the bounds is the
floor of a double value between `minRad` and `maxRad + 1/2`. -/
theorem Draw_r_value (rd : XYZRenderer) (minZ maxZ : FiniteDouble)
    (h0 : 0 ≤ rd.m_minRad) (hrad : rd.m_minRad ≤ rd.m_maxRad) (hmax : rd.m_maxRad ≤ INT_MAX)
    (hlt : minZ.val < maxZ.val) (D k : ℚ)
    (hD : Double.sub maxZ.toDouble minZ.toDouble = Double.finite D)
    (hk : XYZRenderer.Draw.k rd minZ maxZ = some (Double.finite k))
    (z : FiniteDouble) (h1 : minZ.val ≤ z.val) (h2 : z.val ≤ maxZ.val) :
    XYZRenderer.Draw.r rd minZ (XYZRenderer.Draw.k rd minZ maxZ) z =
      some ⌊Draw.value rd.m_minRad minZ.val k z.val⌋ ∧
    roundToGrid (z.val - minZ.val) ≤ D ∧
    (rd.m_minRad : ℚ) ≤ Draw.value rd.m_minRad minZ.val k z.val ∧
    Draw.value rd.m_minRad minZ.val k z.val ≤ (rd.m_maxRad : ℚ) + 1 / 2 := by
  have hIm : INT_MIN = -2147483648 := rfl
  have hIM : INT_MAX = 2147483647 := rfl
  obtain ⟨hD1, hDpos, hDle, hk0, hDk⟩ := Draw_k_facts rd minZ maxZ h0 hrad hmax hlt D k hD hk
  rw [abs_le] at hDk
  have hcast : ((rd.m_maxRad - rd.m_minRad : Int) : ℚ) = (rd.m_maxRad : ℚ) - rd.m_minRad := by
    push_cast
    ring
  have hmin0 : (0 : ℚ) ≤ (rd.m_minRad : ℚ) := by exact_mod_cast h0
  have hmaxmin : (rd.m_minRad : ℚ) ≤ (rd.m_maxRad : ℚ) := by exact_mod_cast hrad
  -- a
  have ha0 : 0 ≤ z.val - minZ.val := by linarith
  have haD : roundToGrid (z.val - minZ.val) ≤ D := by
    rw [hD1]
    exact roundToGrid_mono ha0 (by linarith)
  have hann : 0 ≤ roundToGrid (z.val - minZ.val) := roundToGrid_nonneg ha0
  have hsub : Double.sub z.toDouble minZ.toDouble =
      Double.finite (roundToGrid (z.val - minZ.val)) := by
    simp only [Double.sub, FiniteDouble.toDouble]
    exact Double.round_of_le ha0 (le_trans haD hDle)
  -- p
  have hak0 : 0 ≤ roundToGrid (z.val - minZ.val) * k := mul_nonneg hann hk0
  have hakle : roundToGrid (z.val - minZ.val) * k ≤
      ((rd.m_maxRad - rd.m_minRad : Int) : ℚ) + 1 / 2 := by
    have : roundToGrid (z.val - minZ.val) * k ≤ D * k := mul_le_mul_of_nonneg_right haD hk0
    linarith
  have hple : roundToGrid (roundToGrid (z.val - minZ.val) * k) ≤
      ((rd.m_maxRad - rd.m_minRad : Int) : ℚ) + 1 / 2 :=
    roundToGrid_le_half hak0 _ (by omega) hakle
  have hp0 : 0 ≤ roundToGrid (roundToGrid (z.val - minZ.val) * k) := roundToGrid_nonneg hak0
  have hbig : (2 : ℚ) ^ 33 ≤ maxFinite := by
    have : (2 : ℚ) ^ 33 ≤ 2 ^ 53 := by norm_num
    exact le_trans this two_pow_53_le_maxFinite
  have hmax32 : (rd.m_maxRad : ℚ) ≤ 2 ^ 32 := by
    have : rd.m_maxRad ≤ 2 ^ 32 := by omega
    exact_mod_cast this
  have hmul : Double.mul (Double.finite (roundToGrid (z.val - minZ.val))) (Double.finite k) =
      Double.finite (roundToGrid (roundToGrid (z.val - minZ.val) * k)) := by
    simp only [Double.mul]
    apply Double.round_of_le hak0
    rw [hcast] at hple
    have : (2 : ℚ) ^ 32 + 1 ≤ 2 ^ 33 := by norm_num
    linarith
  -- s
  have hs0 : 0 ≤ roundToGrid (roundToGrid (z.val - minZ.val) * k) + (rd.m_minRad : ℚ) := by
    linarith
  have hsle : Draw.value rd.m_minRad minZ.val k z.val ≤ (rd.m_maxRad : ℚ) + 1 / 2 := by
    unfold Draw.value
    apply roundToGrid_le_half hs0 _ (by omega)
    rw [hcast] at hple
    linarith
  have hsge : (rd.m_minRad : ℚ) ≤ Draw.value rd.m_minRad minZ.val k z.val := by
    unfold Draw.value
    apply int_le_roundToGrid _ h0 (by omega)
    linarith
  have hadd : Double.add (Double.finite (roundToGrid (roundToGrid (z.val - minZ.val) * k)))
      (Double.finite (rd.m_minRad : ℚ)) =
      Double.finite (Draw.value rd.m_minRad minZ.val k z.val) := by
    simp only [Double.add]
    unfold Draw.value at hsle ⊢
    apply Double.round_of_le hs0
    have : (2 : ℚ) ^ 32 + 1 ≤ 2 ^ 33 := by norm_num
    linarith
  have hofInt : Double.ofInt rd.m_minRad = Double.finite (rd.m_minRad : ℚ) :=
    Double.ofInt_eq _ (by omega)
  have hv0 : 0 ≤ Draw.value rd.m_minRad minZ.val k z.val := le_trans hmin0 hsge
  have hfl1 : rd.m_minRad ≤ ⌊Draw.value rd.m_minRad minZ.val k z.val⌋ := Int.le_floor.mpr hsge
  have hfl2 : ⌊Draw.value rd.m_minRad minZ.val k z.val⌋ ≤ rd.m_maxRad := by
    have : ⌊Draw.value rd.m_minRad minZ.val k z.val⌋ < rd.m_maxRad + 1 := by
      rw [Int.floor_lt]
      push_cast
      linarith
    omega
  refine ⟨?_, haD, hsge, hsle⟩
  rw [hk]
  unfold XYZRenderer.Draw.r
  rw [Option.some_bind, hsub, hmul, hofInt, hadd]
  unfold wxCoordOfDouble
  simp only [if_pos hv0]
  rw [if_pos ⟨by omega, by omega⟩]

/-- A value nearer than one half to an integer rounds to it. -/
theorem roundHalfEven_eq_of_near {m : ℚ} {n : Int} (h : |m - n| < 1 / 2) :
    roundHalfEven m = n := by
  have h1 := abs_roundHalfEven_sub_le m
  rw [abs_le] at h1
  rw [abs_lt] at h
  have h2 : ((roundHalfEven m : Int) : ℚ) < (n : ℚ) + 1 := by linarith
  have h3 : (n : ℚ) - 1 < ((roundHalfEven m : Int) : ℚ) := by linarith
  have h4 : roundHalfEven m < n + 1 := by exact_mod_cast h2
  have h5 : n - 1 < roundHalfEven m := by exact_mod_cast h3
  omega

/-- The exponent of the unit in the last place of a positive value of binary exponent `e` in the normal range. -/
theorem ulpExp_eq_of_bounds {q : ℚ} (e : Int) (hq : 0 < q) (hlo : (2 : ℚ) ^ e ≤ q)
    (hhi : q < 2 ^ (e + 1)) (he : -1022 ≤ e) : ulpExp q = e - 52 := by
  unfold ulpExp
  rw [abs_of_pos hq]
  have h1 : e ≤ Int.log 2 q := by
    rw [← Int.zpow_le_iff_le_log (by norm_num) hq, Nat.cast_ofNat]
    exact hlo
  have h2 : Int.log 2 q < e + 1 := by
    rw [← Int.lt_zpow_iff_log_lt (by norm_num) hq, Nat.cast_ofNat]
    exact hhi
  have : Int.log 2 q = e := by omega
  rw [this]
  exact max_eq_left (by omega)

/-- The rounding of a positive value of binary exponent `e` in the normal range that
lies nearer than half a unit in the last place to `n * 2 ^ (e - 52)`. -/
theorem Double.round_eq_of_near {q : ℚ} (e n : Int) (hq : 0 < q) (hlo : (2 : ℚ) ^ e ≤ q)
    (hhi : q < 2 ^ (e + 1)) (he : -1022 ≤ e) (hn : |q / 2 ^ (e - 52) - n| < 1 / 2)
    (hfin : |(n : ℚ) * 2 ^ (e - 52)| ≤ 2 ^ 53) :
    Double.round q = Double.finite ((n : ℚ) * 2 ^ (e - 52)) := by
  have hg : roundToGrid q = (n : ℚ) * 2 ^ (e - 52) := by
    unfold roundToGrid
    rw [ulpExp_eq_of_bounds e hq hlo hhi he, roundHalfEven_eq_of_near hn]
  rw [Double.round_eq_finite_iff, hg]
  exact ⟨rfl, le_trans hfin two_pow_53_le_maxFinite⟩

/-- The rounding of a value of the grid is the value itself. -/
theorem Double.round_grid (m e : Int) (hm : m.natAbs < 2 ^ 53) (he1 : -1074 ≤ e)
    (he2 : e ≤ 971) : Double.round ((m : ℚ) * 2 ^ e) = Double.finite ((m : ℚ) * 2 ^ e) := by
  rw [Double.round_eq_finite_iff, roundToGrid_grid m e hm he1]
  exact ⟨rfl, FiniteDouble.abs_val_le ⟨m, e, hm, he1, he2⟩⟩

/-! ## Theorems about `XYZRenderer::Draw` -/

/-- A loop whose body appends `f index` leaves the commands of all indices, in
increasing order, after those already there. -/
theorem forEachFrom_append {α : Type} (f : Nat → List α) (remaining start : Nat)
    (dc : List α) :
    forEachFrom (fun index dc => dc ++ f index) start remaining dc =
      dc ++ (List.range' start remaining).flatMap f := by
  induction remaining generalizing start dc with
  | zero => simp [forEachFrom]
  | succ n ih =>
    rw [forEachFrom, ih, List.range'_succ, List.flatMap_cons, List.append_assoc]

/-- The loop from zero, for a body that appends. -/
theorem forEach_append {α : Type} (f : Nat → List α) (bound : Nat) (dc : List α) :
    forEach bound (fun index dc => dc ++ f index) dc = dc ++ (List.range bound).flatMap f := by
  rw [forEach, forEachFrom_append, List.range_eq_range']

/-- The series loop body appends the commands of its series. -/
theorem serieBody_eq (GetDefaultColour : Nat → wxColour) (rd : XYZRenderer) (rc : wxRect)
    (horizToGraphics vertToGraphics : Int → Int → FiniteDouble → Int) (dataset : NaryDataSet)
    (minZ : FiniteDouble) (k : Option Double) (serie : Nat) (dc : List DCCommand) :
    XYZRenderer.Draw.serieBody GetDefaultColour rd rc horizToGraphics vertToGraphics dataset
        minZ k serie dc =
      dc ++ serieCommands GetDefaultColour rd rc horizToGraphics vertToGraphics dataset
        (fun s n => XYZRenderer.Draw.r rd minZ k (dataset.InterpretDataAsValue s n 2))
        serie := by
  unfold XYZRenderer.Draw.serieBody XYZRenderer.Draw.itemBody serieCommands
  simp only []
  rw [forEach_append (fun n => [DCCommand.DrawCircle
      (horizToGraphics rc.x rc.width (dataset.InterpretDataAsValue serie n 0))
      (vertToGraphics rc.y rc.height (dataset.InterpretDataAsValue serie n 1))
      (XYZRenderer.Draw.r rd minZ k (dataset.InterpretDataAsValue serie n 2))])]
  rw [← List.map_eq_flatMap]
  simp

/-- The commands `Draw` issues, with the radius as the code computes it. -/
theorem Draw_eq (GetDefaultColour : Nat → wxColour) (rd : XYZRenderer)
    (dc : List DCCommand) (rc : wxRect)
    (horizToGraphics vertToGraphics : Int → Int → FiniteDouble → Int) (dataset : NaryDataSet) :
    rd.Draw GetDefaultColour dc rc horizToGraphics vertToGraphics dataset =
      dc ++ drawCommands GetDefaultColour rd rc horizToGraphics vertToGraphics dataset
        (fun s n => XYZRenderer.Draw.r rd (dataset.GetMinValue1 2)
          (XYZRenderer.Draw.k rd (dataset.GetMinValue1 2) (dataset.GetMaxValue1 2))
          (dataset.InterpretDataAsValue s n 2)) := by
  unfold XYZRenderer.Draw drawCommands
  simp only []
  have hbody : XYZRenderer.Draw.serieBody GetDefaultColour rd rc horizToGraphics
      vertToGraphics dataset (dataset.GetMinValue1 2)
      (XYZRenderer.Draw.k rd (dataset.GetMinValue1 2) (dataset.GetMaxValue1 2)) =
      fun serie dc => dc ++ serieCommands GetDefaultColour rd rc horizToGraphics
        vertToGraphics dataset
        (fun s n => XYZRenderer.Draw.r rd (dataset.GetMinValue1 2)
          (XYZRenderer.Draw.k rd (dataset.GetMinValue1 2) (dataset.GetMaxValue1 2))
          (dataset.InterpretDataAsValue s n 2)) serie := by
    funext serie dc
    exact serieBody_eq _ _ _ _ _ _ _ _ _ _
  rw [hbody, forEach_append]

/-- The commands of one series hold one circle per item. -/
theorem countP_serieCommands (GetDefaultColour : Nat → wxColour) (rd : XYZRenderer)
    (rc : wxRect) (horizToGraphics vertToGraphics : Int → Int → FiniteDouble → Int)
    (dataset : NaryDataSet) (radius : Nat → Nat → Option Int) (serie : Nat) :
    (serieCommands GetDefaultColour rd rc horizToGraphics vertToGraphics dataset radius
      serie).countP DCCommand.isDrawCircle = dataset.GetCount serie := by
  unfold serieCommands
  rw [List.countP_cons_of_neg, List.countP_cons_of_neg, List.countP_map]
  · rw [List.countP_eq_length.mpr]
    · exact List.length_range _
    · intro n _
      rfl
  · simp [DCCommand.isDrawCircle]
  · simp [DCCommand.isDrawCircle]

/-- The commands of a drawing hold one circle per item of the dataset. -/
theorem countP_drawCommands (GetDefaultColour : Nat → wxColour) (rd : XYZRenderer)
    (rc : wxRect) (horizToGraphics vertToGraphics : Int → Int → FiniteDouble → Int)
    (dataset : NaryDataSet) (radius : Nat → Nat → Option Int) :
    (drawCommands GetDefaultColour rd rc horizToGraphics vertToGraphics dataset
      radius).countP DCCommand.isDrawCircle = totalItems dataset := by
  unfold drawCommands totalItems
  induction dataset.GetSerieCount with
  | zero => simp
  | succ n ih =>
    rw [List.range_succ, List.flatMap_append, List.countP_append, ih, List.map_append,
      List.sum_append]
    simp [countP_serieCommands]

/-! ## Theorems about the radius -/

/-- A rounding that is zero comes from a value below the least positive `double`. -/
theorem roundToGrid_ne_zero {q : ℚ} (h : (2 : ℚ) ^ (-1074 : Int) ≤ |q|) :
    roundToGrid q ≠ 0 := by
  intro h0
  have hmin : (0 : ℚ) < 2 ^ (-1074 : Int) := two_zpow_pos _
  have hq : 0 < |q| := lt_of_lt_of_le hmin h
  have hp := two_zpow_pos (ulpExp q)
  unfold roundToGrid at h0
  have hr : (roundHalfEven (q / 2 ^ ulpExp q) : ℚ) = 0 := by
    rcases mul_eq_zero.mp h0 with h1 | h1
    · exact h1
    · exact absurd h1 hp.ne'
  have herr := abs_roundHalfEven_sub_le (q / 2 ^ ulpExp q)
  rw [hr, zero_sub, abs_neg, abs_div, abs_of_pos hp, div_le_iff₀ hp] at herr
  have hu : ulpExp |q| = ulpExp q := by
    unfold ulpExp
    rw [abs_abs]
  have hulp := two_zpow_ulpExp_le hq
  rw [hu] at hulp
  have h52 : |q| / 2 ^ 52 ≤ |q| / 4 := by
    apply div_le_div_of_nonneg_left hq.le (by norm_num) (by norm_num)
  have hulp2 : (2 : ℚ) ^ ulpExp q ≤ |q| / 4 + |q| := le_trans hulp (add_le_add h52 h)
  linarith

/-- The difference of two finite `double`s is zero exactly when they are equal. -/
theorem Double.sub_eq_zero_iff (a b : FiniteDouble) :
    Double.sub a.toDouble b.toDouble = Double.finite 0 ↔ b.val = a.val := by
  simp only [Double.sub, FiniteDouble.toDouble, Double.round_eq_finite_iff]
  constructor
  · rintro ⟨h0, _⟩
    by_contra hne
    have hge : (2 : ℚ) ^ (-1074 : Int) ≤ |a.val - b.val| := by
      rcases lt_or_gt_of_ne hne with h | h
      · rw [abs_of_pos (sub_pos.mpr h)]
        exact FiniteDouble.min_le_sub h
      · rw [abs_sub_comm, abs_of_pos (sub_pos.mpr h)]
        exact FiniteDouble.min_le_sub h
    exact roundToGrid_ne_zero hge h0.symm
  · intro h
    rw [h, sub_self, roundToGrid_zero]
    refine ⟨rfl, ?_⟩
    rw [abs_zero]
    exact le_trans (by positivity) two_pow_53_le_maxFinite

/-- A division by zero does not give a finite `double`. -/
theorem Double.div_zero_not_finite (a : Double) :
    (Double.div a (Double.finite 0)).isFinite = false := by
  cases a with
  | finite q =>
    simp only [Double.div, if_true]
    split_ifs <;> rfl
  | inf s => rfl
  | nan => rfl

/-- A product by a `double` that is not finite is not finite. -/
theorem Double.mul_not_finite (a k : Double) (hk : k.isFinite = false) :
    (Double.mul a k).isFinite = false := by
  cases k with
  | finite q => exact absurd hk (by simp [Double.isFinite])
  | inf s =>
    cases a with
    | finite q =>
      simp only [Double.mul]
      split_ifs <;> rfl
    | inf t => rfl
    | nan => rfl
  | nan =>
    cases a <;> rfl

/-- A sum whose first term is not finite is not finite. -/
theorem Double.add_not_finite (a b : Double) (ha : a.isFinite = false) :
    (Double.add a b).isFinite = false := by
  cases a with
  | finite q => exact absurd ha (by simp [Double.isFinite])
  | inf s =>
    cases b with
    | finite q => rfl
    | inf t =>
      simp only [Double.add]
      split_ifs <;> rfl
    | nan => rfl
  | nan =>
    cases b <;> rfl

/-- The conversion of a `double` that is not finite is undefined. -/
theorem wxCoordOfDouble_not_finite (d : Double) (hd : d.isFinite = false) :
    wxCoordOfDouble d = none := by
  cases d with
  | finite q => exact absurd hd (by simp [Double.isFinite])
  | inf s => rfl
  | nan => rfl

/-- With a zero range, the scale factor, when the `int` subtraction defines it, is not
finite. -/
theorem Draw_k_zero_range (rd : XYZRenderer) (minZ maxZ : FiniteDouble)
    (hz : minZ.val = maxZ.val) (k : Double)
    (hk : XYZRenderer.Draw.k rd minZ maxZ = some k) : k.isFinite = false := by
  unfold XYZRenderer.Draw.k at hk
  rw [(Double.sub_eq_zero_iff maxZ minZ).mpr hz] at hk
  cases hsub : intSub rd.m_maxRad rd.m_minRad with
  | none =>
    rw [hsub] at hk
    exact absurd hk (by simp)
  | some d =>
    rw [hsub, Option.map_some', Option.some.injEq] at hk
    rw [← hk]
    exact Double.div_zero_not_finite _

/-- With a zero range, no radius is defined. -/
theorem Draw_r_zero_range (rd : XYZRenderer) (minZ maxZ z : FiniteDouble)
    (hz : minZ.val = maxZ.val) :
    XYZRenderer.Draw.r rd minZ (XYZRenderer.Draw.k rd minZ maxZ) z = none := by
  cases hk : XYZRenderer.Draw.k rd minZ maxZ with
  | none => rfl
  | some k =>
    have hnf := Draw_k_zero_range rd minZ maxZ hz k hk
    unfold XYZRenderer.Draw.r
    rw [Option.some_bind]
    exact wxCoordOfDouble_not_finite _
      (Double.add_not_finite _ _ (Double.mul_not_finite _ _ hnf))

/-- The range facts that a defined `int` subtraction gives. -/
theorem intSub_eq_some {a b d : Int} (h : intSub a b = some d) :
    d = a - b ∧ INT_MIN ≤ a ∧ a ≤ INT_MAX ∧ INT_MIN ≤ b ∧ b ≤ INT_MAX ∧
      INT_MIN ≤ a - b ∧ a - b ≤ INT_MAX := by
  unfold intSub at h
  by_cases hc : INT_MIN ≤ a ∧ a ≤ INT_MAX ∧ INT_MIN ≤ b ∧ b ≤ INT_MAX ∧
      INT_MIN ≤ a - b ∧ a - b ≤ INT_MAX
  · rw [if_pos hc, Option.some.injEq] at h
    exact ⟨h.symm, hc⟩
  · rw [if_neg hc] at h
    exact absurd h (by simp)

/-- When the arithmetic is exact and the range is not zero, the radius `Draw`
computes is the interpolated radius of the specification, truncated toward zero. -/
theorem Draw_r_exact (rd : XYZRenderer) (minZ maxZ z : FiniteDouble)
    (hz : minZ.val ≠ maxZ.val) (hex : exactArithmetic rd minZ maxZ z) :
    XYZRenderer.Draw.r rd minZ (XYZRenderer.Draw.k rd minZ maxZ) z =
      some (truncTowardZero
        (specRadius rd.m_minRad rd.m_maxRad minZ.val maxZ.val z.val)) := by
  have hIm : INT_MIN = -2147483648 := rfl
  have hIM : INT_MAX = 2147483647 := rfl
  obtain ⟨hsub, hD, hk, ha, hp, hs, hlo, hhi⟩ := hex
  unfold IsExact at hD hk ha hp hs
  obtain ⟨_, h1, h2, h3, h4, h5, h6⟩ := intSub_eq_some hsub
  have hne : maxZ.val - minZ.val ≠ 0 := sub_ne_zero.mpr (Ne.symm hz)
  have hR : Double.ofInt (rd.m_maxRad - rd.m_minRad) =
      Double.finite ((rd.m_maxRad - rd.m_minRad : Int) : ℚ) :=
    Double.ofInt_eq _ (by omega)
  have hm : Double.ofInt rd.m_minRad = Double.finite (rd.m_minRad : ℚ) :=
    Double.ofInt_eq _ (by omega)
  have hkv : XYZRenderer.Draw.k rd minZ maxZ = some (Double.finite
      (((rd.m_maxRad - rd.m_minRad : Int) : ℚ) / (maxZ.val - minZ.val))) := by
    unfold XYZRenderer.Draw.k
    rw [hsub, Option.map_some', hR]
    simp only [Double.sub, FiniteDouble.toDouble, hD, Double.div, if_neg hne, hk]
  have hval : (z.val - minZ.val) *
      (((rd.m_maxRad - rd.m_minRad : Int) : ℚ) / (maxZ.val - minZ.val)) +
      (rd.m_minRad : ℚ) = specRadius rd.m_minRad rd.m_maxRad minZ.val maxZ.val z.val := by
    unfold specRadius
    push_cast
    ring
  rw [hkv]
  unfold XYZRenderer.Draw.r
  rw [Option.some_bind, hm]
  simp only [Double.sub, FiniteDouble.toDouble, ha, Double.mul, hp, Double.add, hs]
  rw [hval]
  simp only [wxCoordOfDouble]
  unfold truncTowardZero at hlo hhi ⊢
  exact if_pos ⟨hlo, hhi⟩

/-- The rounding of a small integer is the integer. -/
theorem Double.round_small_int (n : Int) (hn : n.natAbs < 2 ^ 53) :
    Double.round (n : ℚ) = Double.finite (n : ℚ) := Double.ofInt_eq n hn

/-- The drawing commands are the same for radii that agree on the items of the
dataset. -/
theorem drawCommands_congr (GetDefaultColour : Nat → wxColour) (rd : XYZRenderer)
    (rc : wxRect) (horizToGraphics vertToGraphics : Int → Int → FiniteDouble → Int)
    (dataset : NaryDataSet) (radius1 radius2 : Nat → Nat → Option Int)
    (h : ∀ s n, s < dataset.GetSerieCount → n < dataset.GetCount s →
      radius1 s n = radius2 s n) :
    drawCommands GetDefaultColour rd rc horizToGraphics vertToGraphics dataset radius1 =
      drawCommands GetDefaultColour rd rc horizToGraphics vertToGraphics dataset radius2 := by
  unfold drawCommands
  have hs : ∀ s ∈ List.range dataset.GetSerieCount,
      serieCommands GetDefaultColour rd rc horizToGraphics vertToGraphics dataset radius1 s =
      serieCommands GetDefaultColour rd rc horizToGraphics vertToGraphics dataset radius2 s := by
    intro s hs
    unfold serieCommands
    congr 2
    apply List.map_congr_left
    intro n hn
    rw [h s n (List.mem_range.mp hs) (List.mem_range.mp hn)]
  rw [List.flatMap, List.flatMap, List.map_congr_left hs]

/-- The radius for a finite scale factor, unfolded. -/
theorem Draw_r_some_finite (rd : XYZRenderer) (minZ z : FiniteDouble) (k : ℚ) :
    XYZRenderer.Draw.r rd minZ (some (Double.finite k)) z =
      wxCoordOfDouble (Double.add (Double.mul (Double.round (z.val - minZ.val))
        (Double.finite k)) (Double.ofInt rd.m_minRad)) := rfl

/-- The scale factor for a defined `int` subtraction, unfolded. -/
theorem Draw_k_of_intSub (rd : XYZRenderer) (minZ maxZ : FiniteDouble) (d : Int)
    (h : intSub rd.m_maxRad rd.m_minRad = some d) :
    XYZRenderer.Draw.k rd minZ maxZ =
      some (Double.div (Double.ofInt d) (Double.round (maxZ.val - minZ.val))) := by
  unfold XYZRenderer.Draw.k
  rw [h]
  rfl

/-- The rounding of a value of the grid above the largest finite `double`. -/
theorem Double.round_overflow (m e : Int) (hm : m.natAbs < 2 ^ 53) (he : -1074 ≤ e)
    (hbig : maxFinite < |(m : ℚ) * 2 ^ e|) :
    Double.round ((m : ℚ) * 2 ^ e) = Double.inf (decide ((m : ℚ) * 2 ^ e < 0)) := by
  unfold Double.round
  rw [roundToGrid_grid m e hm he, if_neg (not_le.mpr hbig)]

/-- The `double` 0 from the `int` 0. -/
theorem Double.ofInt_zero : Double.ofInt 0 = Double.finite 0 := by
  have := Double.ofInt_eq 0 (by decide)
  simpa using this

/-- The `double` 1 from the `int` 1. -/
theorem Double.ofInt_one : Double.ofInt 1 = Double.finite 1 := by
  have := Double.ofInt_eq 1 (by decide)
  simpa using this

/-- The rounding of zero. -/
theorem Double.round_zero : Double.round 0 = Double.finite 0 := by
  have := Double.round_small_int 0 (by decide)
  simpa using this

/-- The scale factor of the radii 0 and 100 over the bounds 0 and 3: the `double`
nearest to `100 / 3`. -/
theorem Draw_k_third : XYZRenderer.Draw.k (XYZRenderer.new 0 100) double0 double3 =
    some (Double.finite (4691249611844267 * 2 ^ (-47 : Int))) := by
  have hsub : Double.round (3 : ℚ) = Double.finite 3 := by
    have := Double.round_small_int 3 (by decide)
    simpa using this
  have h100 : Double.ofInt 100 = Double.finite 100 := by
    have := Double.ofInt_eq 100 (by decide)
    simpa using this
  have hdiv : Double.round ((100 : ℚ) / 3) =
      Double.finite (4691249611844267 * 2 ^ (-47 : Int)) := by
    have := Double.round_eq_of_near (q := 100 / 3) 5 4691249611844267 (by norm_num)
      (by norm_num) (by norm_num) (by norm_num) (by norm_num [abs_lt]) (by norm_num [abs_le])
    simpa using this
  have e1 : double3.val - double0.val = 3 := by
    norm_num [double0, double3, FiniteDouble.val]
  have hi : intSub (XYZRenderer.new 0 100).m_maxRad (XYZRenderer.new 0 100).m_minRad =
      some 100 := by
    simp [XYZRenderer.new, intSub, INT_MIN, INT_MAX]
  rw [Draw_k_of_intSub _ _ _ 100 hi, e1, hsub, h100]
  simp only [Double.div]
  rw [if_neg (by norm_num), hdiv]

/-- The radius of the item of value `0.3` for the radii 0 and 100 over the bounds 0
and 3: the product rounds up to 10. -/
theorem Draw_r_three_tenths :
    XYZRenderer.Draw.r (XYZRenderer.new 0 100) double0
      (XYZRenderer.Draw.k (XYZRenderer.new 0 100) double0 double3) doubleThreeTenths =
    some 10 := by
  have e1 : doubleThreeTenths.val - double0.val =
      ((5404319552844595 : Int) : ℚ) * 2 ^ (-54 : Int) := by
    norm_num [double0, doubleThreeTenths, FiniteDouble.val]
  have hz := Double.round_grid 5404319552844595 (-54) (by decide) (by decide) (by decide)
  have hmul : Double.round (((5404319552844595 : Int) : ℚ) * 2 ^ (-54 : Int) *
      (4691249611844267 * 2 ^ (-47 : Int))) = Double.finite 10 := by
    have := Double.round_eq_of_near
      (q := ((5404319552844595 : Int) : ℚ) * 2 ^ (-54 : Int) *
        (4691249611844267 * 2 ^ (-47 : Int)))
      3 5629499534213120 (by norm_num)
      (by norm_num) (by norm_num) (by norm_num) (by norm_num [abs_lt]) (by norm_num [abs_le])
    rw [this]
    norm_num
  have h10 : Double.round ((10 : ℚ) + 0) = Double.finite 10 := by
    have := Double.round_small_int 10 (by decide)
    simpa using this
  have em : (XYZRenderer.new 0 100).m_minRad = 0 := rfl
  rw [Draw_k_third, Draw_r_some_finite, e1, hz, em, Double.ofInt_zero]
  simp only [Double.mul]
  rw [hmul]
  simp only [Double.add]
  rw [h10]
  simp only [wxCoordOfDouble]
  norm_num [INT_MIN, INT_MAX]

/-- The radius for the radii 0 and `INT_MAX` over the bounds 0 and 1 at the value 3,
outside the bounds: the `double` 6442450941 does not fit a `wxCoord`. -/
theorem Draw_r_too_large :
    XYZRenderer.Draw.r (XYZRenderer.new 0 2147483647) double0
      (XYZRenderer.Draw.k (XYZRenderer.new 0 2147483647) double0 double1) double3 = none := by
  have h1 : Double.round (1 : ℚ) = Double.finite 1 := by
    have := Double.round_small_int 1 (by decide)
    simpa using this
  have h3 : Double.round (3 : ℚ) = Double.finite 3 := by
    have := Double.round_small_int 3 (by decide)
    simpa using this
  have hR : Double.ofInt 2147483647 = Double.finite 2147483647 := by
    have := Double.ofInt_eq 2147483647 (by decide)
    simpa using this
  have hR2 : Double.round ((2147483647 : ℚ) / 1) = Double.finite 2147483647 := by
    have := Double.round_small_int 2147483647 (by decide)
    simpa using this
  have hp : Double.round (6442450941 : ℚ) = Double.finite 6442450941 := by
    have := Double.round_small_int 6442450941 (by decide)
    simpa using this
  have e0 : double1.val - double0.val = 1 := by
    norm_num [double0, double1, FiniteDouble.val]
  have e1 : double3.val - double0.val = 3 := by
    norm_num [double0, double3, FiniteDouble.val]
  have e2 : (3 : ℚ) * 2147483647 = 6442450941 := by norm_num
  have e3 : (6442450941 : ℚ) + 0 = 6442450941 := by norm_num
  have em : (XYZRenderer.new 0 2147483647).m_minRad = 0 := rfl
  have hi : intSub (XYZRenderer.new 0 2147483647).m_maxRad
      (XYZRenderer.new 0 2147483647).m_minRad = some 2147483647 := by
    simp [XYZRenderer.new, intSub, INT_MIN, INT_MAX]
  have hk : XYZRenderer.Draw.k (XYZRenderer.new 0 2147483647) double0 double1 =
      some (Double.finite 2147483647) := by
    rw [Draw_k_of_intSub _ _ _ 2147483647 hi, e0, h1, hR]
    simp only [Double.div]
    rw [if_neg (by norm_num), hR2]
  rw [hk, Draw_r_some_finite, e1, h3, em, Double.ofInt_zero]
  simp only [Double.mul]
  rw [e2, hp]
  simp only [Double.add]
  rw [e3, hp]
  simp only [wxCoordOfDouble]
  norm_num [INT_MIN, INT_MAX]

/-- When the range is not zero and no operation overflows, the radius `Draw`
computes is the interpolated radius in rounded arithmetic, truncated toward zero. -/
theorem Draw_r_rounded (rd : XYZRenderer) (minZ maxZ z : FiniteDouble)
    (hz : minZ.val ≠ maxZ.val) (hno : noOverflow rd minZ maxZ z) :
    XYZRenderer.Draw.r rd minZ (XYZRenderer.Draw.k rd minZ maxZ) z =
      some (truncTowardZero
        (roundedRadius rd.m_minRad rd.m_maxRad minZ.val maxZ.val z.val)) := by
  have hIm : INT_MIN = -2147483648 := rfl
  have hIM : INT_MAX = 2147483647 := rfl
  obtain ⟨hsub, hD, hk, ha, hp, hs, hlo, hhi⟩ := hno
  obtain ⟨_, h1, h2, h3, h4, h5, h6⟩ := intSub_eq_some hsub
  have hne : roundToGrid (maxZ.val - minZ.val) ≠ 0 := by
    intro h0
    have : Double.sub maxZ.toDouble minZ.toDouble = Double.finite 0 := by
      simp only [Double.sub, FiniteDouble.toDouble, Double.round_eq_finite_iff]
      exact ⟨h0.symm, hD⟩
    exact hz ((Double.sub_eq_zero_iff maxZ minZ).mp this)
  have hR : Double.ofInt (rd.m_maxRad - rd.m_minRad) =
      Double.finite ((rd.m_maxRad - rd.m_minRad : Int) : ℚ) :=
    Double.ofInt_eq _ (by omega)
  have hm : Double.ofInt rd.m_minRad = Double.finite (rd.m_minRad : ℚ) :=
    Double.ofInt_eq _ (by omega)
  have hDr : Double.round (maxZ.val - minZ.val) =
      Double.finite (roundToGrid (maxZ.val - minZ.val)) :=
    (Double.round_eq_finite_iff _ _).mpr ⟨rfl, hD⟩
  have hkr : Double.round (((rd.m_maxRad - rd.m_minRad : Int) : ℚ) /
      roundToGrid (maxZ.val - minZ.val)) =
      Double.finite (roundedScale rd.m_minRad rd.m_maxRad minZ.val maxZ.val) :=
    (Double.round_eq_finite_iff _ _).mpr ⟨rfl, hk⟩
  have har : Double.round (z.val - minZ.val) =
      Double.finite (roundToGrid (z.val - minZ.val)) :=
    (Double.round_eq_finite_iff _ _).mpr ⟨rfl, ha⟩
  have hpr : Double.round (roundToGrid (z.val - minZ.val) *
      roundedScale rd.m_minRad rd.m_maxRad minZ.val maxZ.val) =
      Double.finite (roundToGrid (roundToGrid (z.val - minZ.val) *
        roundedScale rd.m_minRad rd.m_maxRad minZ.val maxZ.val)) :=
    (Double.round_eq_finite_iff _ _).mpr ⟨rfl, hp⟩
  have hsr : Double.round (roundToGrid (roundToGrid (z.val - minZ.val) *
      roundedScale rd.m_minRad rd.m_maxRad minZ.val maxZ.val) + (rd.m_minRad : ℚ)) =
      Double.finite (roundedRadius rd.m_minRad rd.m_maxRad minZ.val maxZ.val z.val) :=
    (Double.round_eq_finite_iff _ _).mpr ⟨rfl, hs⟩
  have hkv : XYZRenderer.Draw.k rd minZ maxZ = some (Double.finite
      (roundedScale rd.m_minRad rd.m_maxRad minZ.val maxZ.val)) := by
    rw [Draw_k_of_intSub rd minZ maxZ _ hsub, hDr, hR]
    simp only [Double.div]
    rw [if_neg hne, hkr]
  rw [hkv, Draw_r_some_finite, har, hm]
  simp only [Double.mul]
  rw [hpr]
  simp only [Double.add]
  rw [hsr]
  simp only [wxCoordOfDouble]
  unfold truncTowardZero at hlo hhi ⊢
  exact if_pos ⟨hlo, hhi⟩

/-- C3 (as stated, refuted): three inputs with bounds that differ.  For the radii 0
and 100 over the bounds 0 and 3, the item whose value is the `double` nearest to 0.3
gets the radius 10, while the formula of the claim, truncated toward zero, gives 9:
the product `0.3 * (100 / 3)` rounds up to 10.  For the radii `INT_MIN` and 1 the
`int` subtraction overflows and no radius is defined.  For the radii 0 and `INT_MAX`
over the bounds 0 and 1 the value 3 gives a `double` that does not fit a `wxCoord`. -/
theorem C3_radius_formula_refuted :
    (double0.val ≠ double3.val ∧
      XYZRenderer.Draw.r (XYZRenderer.new 0 100) double0
        (XYZRenderer.Draw.k (XYZRenderer.new 0 100) double0 double3) doubleThreeTenths =
        some 10 ∧
      (if 0 ≤ (doubleThreeTenths.val - double0.val) * (((100 : Int) : ℚ) - ((0 : Int) : ℚ)) /
            (double3.val - double0.val) + ((0 : Int) : ℚ)
        then ⌊(doubleThreeTenths.val - double0.val) * (((100 : Int) : ℚ) - ((0 : Int) : ℚ)) /
            (double3.val - double0.val) + ((0 : Int) : ℚ)⌋
        else ⌈(doubleThreeTenths.val - double0.val) * (((100 : Int) : ℚ) - ((0 : Int) : ℚ)) /
            (double3.val - double0.val) + ((0 : Int) : ℚ)⌉) = 9) ∧
    XYZRenderer.Draw.r (XYZRenderer.new (-2147483648) 1) double0
      (XYZRenderer.Draw.k (XYZRenderer.new (-2147483648) 1) double0 double3) double0 = none ∧
    (double0.val ≠ double1.val ∧
      XYZRenderer.Draw.r (XYZRenderer.new 0 2147483647) double0
        (XYZRenderer.Draw.k (XYZRenderer.new 0 2147483647) double0 double1) double3 = none) := by
  refine ⟨⟨?_, Draw_r_three_tenths, ?_⟩, ?_, ?_, Draw_r_too_large⟩
  · norm_num [double0, double3, FiniteDouble.val]
  · norm_num [double0, double3, doubleThreeTenths, FiniteDouble.val]
  · simp [XYZRenderer.Draw.k, XYZRenderer.Draw.r, XYZRenderer.new, intSub, INT_MIN, INT_MAX]
  · norm_num [double0, double1, FiniteDouble.val]

/-- C3 (amended): when the bounds of the third dimension differ, the radius `Draw`
passes to `DrawCircle` for an item of value `z` is the expression
`(z - minZ) * k + minRad`, with `k = (maxRad - minRad) / (maxZ - minZ)` computed once,
evaluated in `double` arithmetic (each operation rounded to the nearest `double`) and
truncated toward zero, the floor when the value is not negative and the ceiling when
it is, provided no operation overflows; when moreover the arithmetic of the item is
exact (no operation rounds), this is
`(z - minZ) * (maxRad - minRad) / (maxZ - minZ) + minRad` truncated toward zero; when
that holds of every item of the dataset, the commands `Draw` issues carry that radius
for every item. -/
theorem C3_radius_formula_amended (GetDefaultColour : Nat → wxColour) (rd : XYZRenderer)
    (dc : List DCCommand) (rc : wxRect)
    (horizToGraphics vertToGraphics : Int → Int → FiniteDouble → Int) (dataset : NaryDataSet)
    (hz : (dataset.GetMinValue1 2).val ≠ (dataset.GetMaxValue1 2).val) :
    (∀ (z : FiniteDouble) (v : ℚ),
      v = roundToGrid (roundToGrid (roundToGrid (z.val - (dataset.GetMinValue1 2).val) *
            roundToGrid (((rd.m_maxRad - rd.m_minRad : Int) : ℚ) /
              roundToGrid ((dataset.GetMaxValue1 2).val - (dataset.GetMinValue1 2).val))) +
          (rd.m_minRad : ℚ)) →
      noOverflow rd (dataset.GetMinValue1 2) (dataset.GetMaxValue1 2) z →
      XYZRenderer.Draw.r rd (dataset.GetMinValue1 2)
          (XYZRenderer.Draw.k rd (dataset.GetMinValue1 2) (dataset.GetMaxValue1 2)) z =
        some (if 0 ≤ v then ⌊v⌋ else ⌈v⌉)) ∧
    (∀ (z : FiniteDouble) (q : ℚ),
      q = (z.val - (dataset.GetMinValue1 2).val) * ((rd.m_maxRad : ℚ) - (rd.m_minRad : ℚ)) /
          ((dataset.GetMaxValue1 2).val - (dataset.GetMinValue1 2).val) + (rd.m_minRad : ℚ) →
      exactArithmetic rd (dataset.GetMinValue1 2) (dataset.GetMaxValue1 2) z →
      XYZRenderer.Draw.r rd (dataset.GetMinValue1 2)
          (XYZRenderer.Draw.k rd (dataset.GetMinValue1 2) (dataset.GetMaxValue1 2)) z =
        some (if 0 ≤ q then ⌊q⌋ else ⌈q⌉)) ∧
    ((∀ s n, s < dataset.GetSerieCount → n < dataset.GetCount s →
        exactArithmetic rd (dataset.GetMinValue1 2) (dataset.GetMaxValue1 2)
          (dataset.InterpretDataAsValue s n 2)) →
      rd.Draw GetDefaultColour dc rc horizToGraphics vertToGraphics dataset =
        dc ++ drawCommands GetDefaultColour rd rc horizToGraphics vertToGraphics dataset
          (fun s n => some (truncTowardZero
            (specRadius rd.m_minRad rd.m_maxRad (dataset.GetMinValue1 2).val
              (dataset.GetMaxValue1 2).val (dataset.InterpretDataAsValue s n 2).val)))) := by
  refine ⟨?_, ?_, ?_⟩
  · intro z v hv hno
    rw [Draw_r_rounded rd _ _ z hz hno, hv]
    rfl
  · intro z q hq hex
    rw [Draw_r_exact rd _ _ z hz hex, hq]
    rfl
  · intro hall
    rw [Draw_eq]
    congr 1
    apply drawCommands_congr
    intro s n hs hn
    exact Draw_r_exact rd _ _ _ hz (hall s n hs hn)

/-- A small integer is a finite `double`. -/
theorem isExact_int (n : Int) (hn : n.natAbs < 2 ^ 53) : IsExact (n : ℚ) :=
  Double.round_small_int n hn

/-- A value of the grid is a finite `double`. -/
theorem isExact_grid (m e : Int) (hm : m.natAbs < 2 ^ 53) (he1 : -1074 ≤ e) (he2 : e ≤ 971) :
    IsExact ((m : ℚ) * 2 ^ e) := Double.round_grid m e hm he1 he2

/-- The arithmetic of the radii 2 and 10 over the bounds 1 and 5 is exact at the
value 2.25: the scale factor is 2, the difference 1.25, the product 2.5 and the sum
4.5. -/
theorem sample_exact_mid :
    exactArithmetic (XYZRenderer.new 2 10) double1 double5 doubleNineFourths := by
  have e1 : double5.val - double1.val = ((4 : Int) : ℚ) := by
    norm_num [double1, double5, FiniteDouble.val]
  have e2 : doubleNineFourths.val - double1.val = ((5 : Int) : ℚ) * 2 ^ (-2 : Int) := by
    norm_num [double1, doubleNineFourths, FiniteDouble.val]
  have eR : (((XYZRenderer.new 2 10).m_maxRad - (XYZRenderer.new 2 10).m_minRad : Int) : ℚ) =
      8 := by
    norm_num [XYZRenderer.new]
  unfold exactArithmetic
  rw [eR, e1, e2]
  refine ⟨?_, isExact_int 4 (by decide), ?_, isExact_grid 5 (-2) (by decide) (by decide)
    (by decide), ?_, ?_, ?_, ?_⟩
  · simp [XYZRenderer.new, intSub, INT_MIN, INT_MAX]
  · have e : (8 : ℚ) / ((4 : Int) : ℚ) = ((2 : Int) : ℚ) := by norm_num
    rw [e]
    exact isExact_int 2 (by decide)
  · have e : ((5 : Int) : ℚ) * 2 ^ (-2 : Int) * ((8 : ℚ) / ((4 : Int) : ℚ)) =
        ((5 : Int) : ℚ) * 2 ^ (-1 : Int) := by norm_num
    rw [e]
    exact isExact_grid 5 (-1) (by decide) (by decide) (by decide)
  · have e : ((5 : Int) : ℚ) * 2 ^ (-2 : Int) * ((8 : ℚ) / ((4 : Int) : ℚ)) +
        (((XYZRenderer.new 2 10).m_minRad : Int) : ℚ) = ((9 : Int) : ℚ) * 2 ^ (-1 : Int) := by
      norm_num [XYZRenderer.new]
    rw [e]
    exact isExact_grid 9 (-1) (by decide) (by decide) (by decide)
  · norm_num [truncTowardZero, specRadius, XYZRenderer.new, double1, double5,
      doubleNineFourths, FiniteDouble.val, INT_MIN]
  · norm_num [truncTowardZero, specRadius, XYZRenderer.new, double1, double5,
      doubleNineFourths, FiniteDouble.val, INT_MAX]

/-- Witness of the C3 theorem: the sample dataset has the bounds `1 ≠ 5`; with the
radii 2 and 10 the arithmetic of the item of value 2.25 is exact and its radius is
the truncation of `(2.25 - 1) * (10 - 2) / (5 - 1) + 2 = 4.5`. -/
theorem C3_radius_formula_amended_witness :
    (sampleDataset.GetMinValue1 2).val ≠ (sampleDataset.GetMaxValue1 2).val ∧
    exactArithmetic (XYZRenderer.new 2 10) (sampleDataset.GetMinValue1 2)
      (sampleDataset.GetMaxValue1 2) doubleNineFourths ∧
    XYZRenderer.Draw.r (XYZRenderer.new 2 10) (sampleDataset.GetMinValue1 2)
        (XYZRenderer.Draw.k (XYZRenderer.new 2 10) (sampleDataset.GetMinValue1 2)
          (sampleDataset.GetMaxValue1 2)) doubleNineFourths =
      some (if (0 : ℚ) ≤ 9 / 2 then ⌊(9 / 2 : ℚ)⌋ else ⌈(9 / 2 : ℚ)⌉) :=
  ⟨by norm_num [sampleDataset, double1, double5, FiniteDouble.val],
   sample_exact_mid,
   (C3_radius_formula_amended sampleColour (XYZRenderer.new 2 10) [] sampleRect
     sampleToGraphics sampleToGraphics sampleDataset
     (by norm_num [sampleDataset, double1, double5, FiniteDouble.val])).2.1
     doubleNineFourths (9 / 2)
     (by norm_num [sampleDataset, XYZRenderer.new, double1, double5, doubleNineFourths,
       FiniteDouble.val])
     sample_exact_mid⟩

/-- The arithmetic of the radii 2 and 10 over the bounds 1 and 5 is exact at the
value 1: the difference and the product are 0 and the sum is 2. -/
theorem sample_exact_low :
    exactArithmetic (XYZRenderer.new 2 10) double1 double5 double1 := by
  have e1 : double5.val - double1.val = ((4 : Int) : ℚ) := by
    norm_num [double1, double5, FiniteDouble.val]
  have eR : (((XYZRenderer.new 2 10).m_maxRad - (XYZRenderer.new 2 10).m_minRad : Int) : ℚ) =
      8 := by
    norm_num [XYZRenderer.new]
  have e0 : (0 : ℚ) = ((0 : Int) : ℚ) := by norm_num
  unfold exactArithmetic
  rw [eR, e1, sub_self, zero_mul]
  refine ⟨?_, isExact_int 4 (by decide), ?_, ?_, ?_, ?_, ?_, ?_⟩
  · simp [XYZRenderer.new, intSub, INT_MIN, INT_MAX]
  · have e : (8 : ℚ) / ((4 : Int) : ℚ) = ((2 : Int) : ℚ) := by norm_num
    rw [e]
    exact isExact_int 2 (by decide)
  · rw [e0]
    exact isExact_int 0 (by decide)
  · rw [e0]
    exact isExact_int 0 (by decide)
  · rw [zero_add]
    exact isExact_int 2 (by decide)
  · norm_num [truncTowardZero, specRadius, XYZRenderer.new, double1, double5,
      FiniteDouble.val, INT_MIN]
  · norm_num [truncTowardZero, specRadius, XYZRenderer.new, double1, double5,
      FiniteDouble.val, INT_MAX]

/-- The arithmetic of the radii 2 and 10 over the bounds 1 and 5 is exact at the
value 5: the difference is 4, the product 8 and the sum 10. -/
theorem sample_exact_high :
    exactArithmetic (XYZRenderer.new 2 10) double1 double5 double5 := by
  have e1 : double5.val - double1.val = ((4 : Int) : ℚ) := by
    norm_num [double1, double5, FiniteDouble.val]
  have eR : (((XYZRenderer.new 2 10).m_maxRad - (XYZRenderer.new 2 10).m_minRad : Int) : ℚ) =
      8 := by
    norm_num [XYZRenderer.new]
  unfold exactArithmetic
  rw [eR, e1]
  refine ⟨?_, isExact_int 4 (by decide), ?_, isExact_int 4 (by decide), ?_, ?_, ?_, ?_⟩
  · simp [XYZRenderer.new, intSub, INT_MIN, INT_MAX]
  · have e : (8 : ℚ) / ((4 : Int) : ℚ) = ((2 : Int) : ℚ) := by norm_num
    rw [e]
    exact isExact_int 2 (by decide)
  · have e : ((4 : Int) : ℚ) * ((8 : ℚ) / ((4 : Int) : ℚ)) = ((8 : Int) : ℚ) := by norm_num
    rw [e]
    exact isExact_int 8 (by decide)
  · have e : ((4 : Int) : ℚ) * ((8 : ℚ) / ((4 : Int) : ℚ)) +
        (((XYZRenderer.new 2 10).m_minRad : Int) : ℚ) = ((10 : Int) : ℚ) := by
      norm_num [XYZRenderer.new]
    rw [e]
    exact isExact_int 10 (by decide)
  · norm_num [truncTowardZero, specRadius, XYZRenderer.new, double1, double5,
      FiniteDouble.val, INT_MIN]
  · norm_num [truncTowardZero, specRadius, XYZRenderer.new, double1, double5,
      FiniteDouble.val, INT_MAX]

/-- The drawing of the sample dataset with radii 2 and 10: the three items of
series 0, of values 1, 2.25 and 5 in `[1, 5]`, get the radii 2, 4 and 10. -/
theorem Draw_sample :
    (XYZRenderer.new 2 10).Draw sampleColour [] sampleRect sampleToGraphics
        sampleToGraphics sampleDataset =
      [DCCommand.SetPen ⟨⟨0, 0, 0, 255⟩, 1, .wxPENSTYLE_SOLID⟩,
       DCCommand.SetBrush ⟨⟨0, 0, 0, 255⟩, .wxBRUSHSTYLE_SOLID⟩,
       DCCommand.DrawCircle 10 20 (some 2),
       DCCommand.DrawCircle 11 22 (some 4),
       DCCommand.DrawCircle 12 25 (some 10),
       DCCommand.SetPen ⟨⟨1, 1, 1, 255⟩, 1, .wxPENSTYLE_SOLID⟩,
       DCCommand.SetBrush ⟨⟨1, 1, 1, 255⟩, .wxBRUSHSTYLE_SOLID⟩] := by
  have hne : double1.val ≠ double5.val := by
    norm_num [double1, double5, FiniteDouble.val]
  have hall : ∀ s n, s < sampleDataset.GetSerieCount → n < sampleDataset.GetCount s →
      XYZRenderer.Draw.r (XYZRenderer.new 2 10) (sampleDataset.GetMinValue1 2)
        (XYZRenderer.Draw.k (XYZRenderer.new 2 10) (sampleDataset.GetMinValue1 2)
          (sampleDataset.GetMaxValue1 2)) (sampleDataset.InterpretDataAsValue s n 2) =
      some (truncTowardZero (specRadius 2 10 double1.val double5.val
        (sampleDataset.InterpretDataAsValue s n 2).val)) := by
    intro s n hs hn
    apply Draw_r_exact (XYZRenderer.new 2 10) double1 double5 _ hne
    simp only [sampleDataset] at hn ⊢
    split_ifs at hn with h0
    · have hn3 : n = 0 ∨ n = 1 ∨ n = 2 := by omega
      rcases hn3 with h | h | h
      · subst h
        exact sample_exact_low
      · subst h
        exact sample_exact_mid
      · subst h
        exact sample_exact_high
    · omega
  have h := drawCommands_congr sampleColour (XYZRenderer.new 2 10) sampleRect
    sampleToGraphics sampleToGraphics sampleDataset _ _ hall
  have f0 : ⌊double0.val⌋ = 0 := by norm_num [double0, FiniteDouble.val]
  have f1 : ⌊double1.val⌋ = 1 := by norm_num [double1, FiniteDouble.val]
  have f2 : ⌊double2.val⌋ = 2 := by norm_num [double2, FiniteDouble.val]
  have f5 : ⌊double5.val⌋ = 5 := by norm_num [double5, FiniteDouble.val]
  have r1 : truncTowardZero (specRadius 2 10 double1.val double5.val double1.val) = 2 := by
    norm_num [truncTowardZero, specRadius, double1, double5, FiniteDouble.val]
  have r2 : truncTowardZero (specRadius 2 10 double1.val double5.val
      doubleNineFourths.val) = 4 := by
    norm_num [truncTowardZero, specRadius, double1, double5, doubleNineFourths,
      FiniteDouble.val]
  have r3 : truncTowardZero (specRadius 2 10 double1.val double5.val double5.val) = 10 := by
    norm_num [truncTowardZero, specRadius, double1, double5, FiniteDouble.val]
  rw [Draw_eq, h]
  simp [drawCommands, serieCommands, sampleDataset, List.range_succ, f0, f1, f2, f5, r1, r2,
    r3, XYZRenderer.new, XYZRenderer.GetSeriePen, XYZRenderer.GetSerieBrush, FindOrCreatePen,
    FindOrCreateBrush, sampleColour, sampleRect, sampleToGraphics]

/-- C8: the commands `Draw` issues are, after those the device context already
received, for each series in increasing index order one `SetPen` with
`GetSeriePen serie`, one `SetBrush` with `GetSerieBrush serie`, then one `DrawCircle`
per item of the series in increasing item order; the number of circles drawn is the
total number of items over all series; a series with no item adds its `SetPen` and
`SetBrush` and no circle. -/
theorem C8_draw_per_series (GetDefaultColour : Nat → wxColour) (rd : XYZRenderer)
    (dc : List DCCommand) (rc : wxRect)
    (horizToGraphics vertToGraphics : Int → Int → FiniteDouble → Int) (dataset : NaryDataSet) :
    rd.Draw GetDefaultColour dc rc horizToGraphics vertToGraphics dataset =
      dc ++ (List.range dataset.GetSerieCount).flatMap (fun serie =>
        DCCommand.SetPen (rd.GetSeriePen GetDefaultColour serie) ::
        DCCommand.SetBrush (rd.GetSerieBrush GetDefaultColour serie) ::
        (List.range (dataset.GetCount serie)).map (fun n =>
          DCCommand.DrawCircle
            (horizToGraphics rc.x rc.width (dataset.InterpretDataAsValue serie n 0))
            (vertToGraphics rc.y rc.height (dataset.InterpretDataAsValue serie n 1))
            (XYZRenderer.Draw.r rd (dataset.GetMinValue1 2)
              (XYZRenderer.Draw.k rd (dataset.GetMinValue1 2) (dataset.GetMaxValue1 2))
              (dataset.InterpretDataAsValue serie n 2)))) ∧
    (rd.Draw GetDefaultColour dc rc horizToGraphics vertToGraphics dataset).countP
        DCCommand.isDrawCircle =
      dc.countP DCCommand.isDrawCircle + totalItems dataset ∧
    ∀ (serie : Nat) (dc1 : List DCCommand), dataset.GetCount serie = 0 →
      XYZRenderer.Draw.serieBody GetDefaultColour rd rc horizToGraphics vertToGraphics
          dataset (dataset.GetMinValue1 2)
          (XYZRenderer.Draw.k rd (dataset.GetMinValue1 2) (dataset.GetMaxValue1 2))
          serie dc1 =
        dc1 ++ [DCCommand.SetPen (rd.GetSeriePen GetDefaultColour serie),
                DCCommand.SetBrush (rd.GetSerieBrush GetDefaultColour serie)] := by
  refine ⟨?_, ?_, ?_⟩
  · rw [Draw_eq]
    rfl
  · rw [Draw_eq, List.countP_append, countP_drawCommands]
  · intro serie dc1 h0
    rw [serieBody_eq]
    simp [serieCommands, h0]

/-- Witness of the C8 theorem: series 1 of the sample dataset has no item and
adds a `SetPen` and a `SetBrush` only. -/
theorem C8_draw_per_series_witness :
    sampleDataset.GetCount 1 = 0 ∧
    XYZRenderer.Draw.serieBody sampleColour (XYZRenderer.new 2 10) sampleRect
        sampleToGraphics sampleToGraphics sampleDataset (sampleDataset.GetMinValue1 2)
        (XYZRenderer.Draw.k (XYZRenderer.new 2 10) (sampleDataset.GetMinValue1 2)
          (sampleDataset.GetMaxValue1 2)) 1 [] =
      [] ++ [DCCommand.SetPen ((XYZRenderer.new 2 10).GetSeriePen sampleColour 1),
             DCCommand.SetBrush ((XYZRenderer.new 2 10).GetSerieBrush sampleColour 1)] :=
  ⟨rfl,
   (C8_draw_per_series sampleColour (XYZRenderer.new 2 10) [] sampleRect sampleToGraphics
     sampleToGraphics sampleDataset).2.2 1 [] rfl⟩

/-- The drawing of the dataset of zero range: its single item is drawn, with an
undefined radius. -/
theorem Draw_flat :
    (XYZRenderer.new 2 10).Draw sampleColour [] sampleRect sampleToGraphics
        sampleToGraphics flatDataset =
      [DCCommand.SetPen ⟨⟨0, 0, 0, 255⟩, 1, .wxPENSTYLE_SOLID⟩,
       DCCommand.SetBrush ⟨⟨0, 0, 0, 255⟩, .wxBRUSHSTYLE_SOLID⟩,
       DCCommand.DrawCircle 10 20 none] := by
  have hf : ⌊double0.val⌋ = 0 := by
    norm_num [double0, FiniteDouble.val]
  have h := drawCommands_congr sampleColour (XYZRenderer.new 2 10) sampleRect
    sampleToGraphics sampleToGraphics flatDataset
    (fun s n => XYZRenderer.Draw.r (XYZRenderer.new 2 10) (flatDataset.GetMinValue1 2)
      (XYZRenderer.Draw.k (XYZRenderer.new 2 10) (flatDataset.GetMinValue1 2)
        (flatDataset.GetMaxValue1 2)) (flatDataset.InterpretDataAsValue s n 2))
    (fun _ _ => none)
    (fun s n _ _ => Draw_r_zero_range (XYZRenderer.new 2 10) _ _ _ rfl)
  rw [Draw_eq, h]
  simp [drawCommands, serieCommands, flatDataset, hf, XYZRenderer.new,
    XYZRenderer.GetSeriePen, XYZRenderer.GetSerieBrush, FindOrCreatePen, FindOrCreateBrush,
    sampleColour, sampleRect, sampleToGraphics, List.range_succ]

/-- The scale factor of the radii 0 and 1 over the bounds 0 and 49: the `double`
nearest to `1 / 49`, which lies below `1 / 49`. -/
theorem Draw_k_forty_ninth : XYZRenderer.Draw.k (XYZRenderer.new 0 1) double0 double49 =
    some (Double.finite (5882252574524729 * 2 ^ (-58 : Int))) := by
  have hsub : Double.round (49 : ℚ) = Double.finite 49 := by
    have := Double.round_small_int 49 (by decide)
    simpa using this
  have hdiv : Double.round ((1 : ℚ) / 49) =
      Double.finite (5882252574524729 * 2 ^ (-58 : Int)) := by
    have := Double.round_eq_of_near (q := 1 / 49) (-6) 5882252574524729 (by norm_num)
      (by norm_num) (by norm_num) (by norm_num) (by norm_num [abs_lt]) (by norm_num [abs_le])
    simpa using this
  have e1 : double49.val - double0.val = 49 := by
    norm_num [double0, double49, FiniteDouble.val]
  have hi : intSub (XYZRenderer.new 0 1).m_maxRad (XYZRenderer.new 0 1).m_minRad =
      some 1 := by
    simp [XYZRenderer.new, intSub, INT_MIN, INT_MAX]
  rw [Draw_k_of_intSub _ _ _ 1 hi, e1, hsub, Double.ofInt_one]
  simp only [Double.div]
  rw [if_neg (by norm_num), hdiv]

/-- The radius at the upper bound for the radii 0 and 1 over the bounds 0 and 49: the
product `49 * k` rounds to the `double` just below 1, and the radius is 0. -/
theorem Draw_r_forty_nine :
    XYZRenderer.Draw.r (XYZRenderer.new 0 1) double0
      (XYZRenderer.Draw.k (XYZRenderer.new 0 1) double0 double49) double49 = some 0 := by
  have e1 : double49.val - double0.val = 49 := by
    norm_num [double0, double49, FiniteDouble.val]
  have hsub : Double.round (49 : ℚ) = Double.finite 49 := by
    have := Double.round_small_int 49 (by decide)
    simpa using this
  have hmul : Double.round ((49 : ℚ) * (5882252574524729 * 2 ^ (-58 : Int))) =
      Double.finite (((9007199254740991 : Int) : ℚ) * 2 ^ (-53 : Int)) := by
    have := Double.round_eq_of_near
      (q := (49 : ℚ) * (5882252574524729 * 2 ^ (-58 : Int)))
      (-1) 9007199254740991 (by norm_num)
      (by norm_num) (by norm_num) (by norm_num) (by norm_num [abs_lt]) (by norm_num [abs_le])
    rw [this]
    norm_num
  have hadd : Double.round (((9007199254740991 : Int) : ℚ) * 2 ^ (-53 : Int) + 0) =
      Double.finite (((9007199254740991 : Int) : ℚ) * 2 ^ (-53 : Int)) := by
    rw [add_zero]
    exact Double.round_grid 9007199254740991 (-53) (by decide) (by decide) (by decide)
  have em : (XYZRenderer.new 0 1).m_minRad = 0 := rfl
  rw [Draw_k_forty_ninth, Draw_r_some_finite, e1, hsub, em, Double.ofInt_zero]
  simp only [Double.mul]
  rw [hmul]
  simp only [Double.add]
  rw [hadd]
  simp only [wxCoordOfDouble]
  norm_num [INT_MIN, INT_MAX]

/-- The largest finite `double` is below `2 ^ 1024`. -/
theorem maxFinite_lt : maxFinite < 2 ^ 53 * 2 ^ 971 := by
  unfold maxFinite
  have h : (0 : ℚ) < 2 ^ 971 := by positivity
  nlinarith

/-- The radius at the upper bound for the radii 0 and 1 over the bounds `-maxFinite`
and `maxFinite`: the difference of the bounds overflows, the scale factor is 0, the
difference `z - minZ` is an infinity and the radius is undefined. -/
theorem Draw_r_range_overflow :
    XYZRenderer.Draw.k (XYZRenderer.new 0 1) doubleLowest doubleMax =
      some (Double.finite 0) ∧
    XYZRenderer.Draw.r (XYZRenderer.new 0 1) doubleLowest
      (XYZRenderer.Draw.k (XYZRenderer.new 0 1) doubleLowest doubleMax) doubleMax = none := by
  have e1 : doubleMax.val - doubleLowest.val =
      ((9007199254740991 : Int) : ℚ) * 2 ^ (972 : Int) := by
    have : (2 : ℚ) ^ (972 : Int) = 2 ^ (971 : Int) * 2 := by
      rw [show (972 : Int) = 971 + 1 by norm_num, zpow_add₀ (by norm_num : (2 : ℚ) ≠ 0),
        zpow_one]
    rw [this]
    simp only [doubleMax, doubleLowest, FiniteDouble.val]
    push_cast
    ring
  have hbig : maxFinite < |((9007199254740991 : Int) : ℚ) * 2 ^ (972 : Int)| := by
    have h972 : (2 : ℚ) ^ (972 : Int) = 2 ^ 971 * 2 := by
      rw [show (972 : Int) = ((971 : ℕ) : Int) + 1 by norm_num,
        zpow_add₀ (by norm_num : (2 : ℚ) ≠ 0), zpow_one, zpow_natCast]
    have h : (0 : ℚ) < 2 ^ 971 := by positivity
    rw [abs_of_pos (by positivity), h972]
    unfold maxFinite
    push_cast
    nlinarith
  have hov := Double.round_overflow 9007199254740991 972 (by decide) (by decide) hbig
  have hpos : ¬ (((9007199254740991 : Int) : ℚ) * 2 ^ (972 : Int) < 0) :=
    not_lt.mpr (by positivity)
  rw [decide_eq_false hpos] at hov
  have hi : intSub (XYZRenderer.new 0 1).m_maxRad (XYZRenderer.new 0 1).m_minRad =
      some 1 := by
    simp [XYZRenderer.new, intSub, INT_MIN, INT_MAX]
  have hk : XYZRenderer.Draw.k (XYZRenderer.new 0 1) doubleLowest doubleMax =
      some (Double.finite 0) := by
    rw [Draw_k_of_intSub _ _ _ 1 hi, e1, hov, Double.ofInt_one]
    rfl
  refine ⟨hk, ?_⟩
  rw [hk, Draw_r_some_finite, e1, hov]
  simp [Double.mul, Double.add, wxCoordOfDouble]

/-- The radius at the lower bound for the radii 0 and 1 over the bounds 0 and the
least positive `double`: the scale factor overflows to an infinity, its product by
the zero difference is a NaN and the radius is undefined. -/
theorem Draw_r_scale_overflow :
    (Double.sub doubleMinPositive.toDouble double0.toDouble).isFinite = true ∧
    XYZRenderer.Draw.r (XYZRenderer.new 0 1) double0
      (XYZRenderer.Draw.k (XYZRenderer.new 0 1) double0 doubleMinPositive) double0 = none := by
  have e1 : doubleMinPositive.val - double0.val = ((1 : Int) : ℚ) * 2 ^ (-1074 : Int) := by
    simp [doubleMinPositive, double0, FiniteDouble.val]
  have hD := Double.round_grid 1 (-1074) (by decide) (by decide) (by decide)
  have e2 : ((1 : Int) : ℚ) / (((1 : Int) : ℚ) * 2 ^ (-1074 : Int)) =
      ((1 : Int) : ℚ) * 2 ^ (1074 : Int) := by
    rw [zpow_neg]
    field_simp
  have hbig : maxFinite < |((1 : Int) : ℚ) * 2 ^ (1074 : Int)| := by
    have h1074 : (2 : ℚ) ^ (1074 : Int) = 2 ^ 53 * 2 ^ 971 * 2 ^ 50 := by
      rw [show (1074 : Int) = ((1074 : ℕ) : Int) by norm_num, zpow_natCast, ← pow_add,
        ← pow_add]
    have h : (0 : ℚ) < 2 ^ 53 * 2 ^ 971 := by positivity
    have h50 : (1 : ℚ) ≤ 2 ^ 50 := one_le_pow₀ (by norm_num)
    rw [abs_of_pos (by positivity), h1074, Int.cast_one, one_mul]
    have := maxFinite_lt
    nlinarith
  have hov := Double.round_overflow 1 1074 (by decide) (by decide) hbig
  have hne : ((1 : Int) : ℚ) * 2 ^ (-1074 : Int) ≠ 0 :=
    mul_ne_zero (by norm_num) (two_zpow_pos _).ne'
  have hi : intSub (XYZRenderer.new 0 1).m_maxRad (XYZRenderer.new 0 1).m_minRad =
      some 1 := by
    simp [XYZRenderer.new, intSub, INT_MIN, INT_MAX]
  have hone : Double.ofInt 1 = Double.finite ((1 : Int) : ℚ) := Double.ofInt_eq 1 (by decide)
  have hk : XYZRenderer.Draw.k (XYZRenderer.new 0 1) double0 doubleMinPositive =
      some (Double.inf (decide (((1 : Int) : ℚ) * 2 ^ (1074 : Int) < 0))) := by
    rw [Draw_k_of_intSub _ _ _ 1 hi, e1, hD, hone]
    simp only [Double.div]
    rw [if_neg hne, e2, hov]
  constructor
  · simp only [Double.sub, FiniteDouble.toDouble]
    rw [e1, hD]
    rfl
  · rw [hk]
    simp only [XYZRenderer.Draw.r, Option.some_bind, Double.sub, FiniteDouble.toDouble,
      sub_self, Double.round_zero, Double.mul, if_true]
    cases Double.ofInt (XYZRenderer.new 0 1).m_minRad <;> rfl

/-- C10 (as stated, refuted): three inputs with radii `0 ≤ 0 ≤ 1` and bounds
`minZ < maxZ`.  Over the bounds 0 and 49 the radius at `z = maxZ = 49` is 0, not
`maxRad = 1`: the scale factor, the `double` nearest to `1 / 49`, lies below `1 / 49`
and `49 * k` rounds to the `double` just below 1.  Over the bounds `-maxFinite` and
`maxFinite` the difference `maxZ - minZ` overflows and the radius at `z = maxZ` is
undefined.  Over the bounds 0 and `2 ^ (-1074)` the scale factor overflows and the
radius at `z = minZ` is undefined. -/
theorem C10_radius_within_radii_refuted :
    ((0 : Int) ≤ (XYZRenderer.new 0 1).m_minRad ∧
      (XYZRenderer.new 0 1).m_minRad ≤ (XYZRenderer.new 0 1).m_maxRad ∧
      double0.val < double49.val ∧
      XYZRenderer.Draw.r (XYZRenderer.new 0 1) double0
        (XYZRenderer.Draw.k (XYZRenderer.new 0 1) double0 double49) double49 = some 0 ∧
      (0 : Int) ≠ (XYZRenderer.new 0 1).m_maxRad) ∧
    (doubleLowest.val < doubleMax.val ∧
      XYZRenderer.Draw.r (XYZRenderer.new 0 1) doubleLowest
        (XYZRenderer.Draw.k (XYZRenderer.new 0 1) doubleLowest doubleMax) doubleMax = none) ∧
    (double0.val < doubleMinPositive.val ∧
      XYZRenderer.Draw.r (XYZRenderer.new 0 1) double0
        (XYZRenderer.Draw.k (XYZRenderer.new 0 1) double0 doubleMinPositive) double0 =
        none) := by
  refine ⟨⟨by decide, by decide, ?_, Draw_r_forty_nine, by decide⟩,
    ⟨?_, Draw_r_range_overflow.2⟩, ⟨?_, Draw_r_scale_overflow.2⟩⟩
  · norm_num [double0, double49, FiniteDouble.val]
  · have h : (0 : ℚ) < 2 ^ (971 : Int) := two_zpow_pos _
    simp only [doubleLowest, doubleMax, FiniteDouble.val]
    push_cast
    linarith
  · have h : (0 : ℚ) < 2 ^ (-1074 : Int) := two_zpow_pos _
    simp only [double0, doubleMinPositive, FiniteDouble.val]
    push_cast
    linarith

/-- The `double` converted to the radius does not decrease with the value of the
item, for a scale factor that is not negative. -/
theorem Draw_value_mono (minRad : Int) (h0 : 0 ≤ minRad) (lo k : ℚ) (hk : 0 ≤ k) {z1 z2 : ℚ}
    (h1 : lo ≤ z1) (h : z1 ≤ z2) :
    Draw.value minRad lo k z1 ≤ Draw.value minRad lo k z2 := by
  unfold Draw.value
  have hm : (0 : ℚ) ≤ (minRad : ℚ) := by exact_mod_cast h0
  have ha0 : 0 ≤ roundToGrid (z1 - lo) := roundToGrid_nonneg (by linarith)
  have ha : roundToGrid (z1 - lo) ≤ roundToGrid (z2 - lo) :=
    roundToGrid_mono (by linarith) (by linarith)
  have hp0 : 0 ≤ roundToGrid (roundToGrid (z1 - lo) * k) :=
    roundToGrid_nonneg (mul_nonneg ha0 hk)
  have hp : roundToGrid (roundToGrid (z1 - lo) * k) ≤ roundToGrid (roundToGrid (z2 - lo) * k) :=
    roundToGrid_mono (mul_nonneg ha0 hk) (mul_le_mul_of_nonneg_right ha hk)
  exact roundToGrid_mono (by linarith) (by linarith)

/-- C10 (amended): for `int` radii `0 ≤ minRad ≤ maxRad` and bounds `minZ < maxZ`
whose `double` difference `maxZ - minZ` and scale factor `k` are finite, the radius
`Draw` computes for a value `z` with `minZ ≤ z ≤ maxZ` is defined and lies between
`minRad` and `maxRad`; it is `minRad` at `minZ`; at `maxZ` it is `maxRad` or
`maxRad - 1`, and `maxRad` when `(maxZ - minZ) * k` is exactly `maxRad - minRad`; and
it does not decrease when `z` grows inside the bounds. -/
theorem C10_radius_within_radii_amended (rd : XYZRenderer) (minZ maxZ : FiniteDouble)
    (h0 : 0 ≤ rd.m_minRad) (hrad : rd.m_minRad ≤ rd.m_maxRad) (hmax : rd.m_maxRad ≤ INT_MAX)
    (hlt : minZ.val < maxZ.val)
    (hD : (Double.sub maxZ.toDouble minZ.toDouble).isFinite = true)
    (hk : ∃ k : Double, XYZRenderer.Draw.k rd minZ maxZ = some k ∧ k.isFinite = true) :
    (∀ z : FiniteDouble, minZ.val ≤ z.val → z.val ≤ maxZ.val →
      ∃ r : Int, XYZRenderer.Draw.r rd minZ (XYZRenderer.Draw.k rd minZ maxZ) z = some r ∧
        rd.m_minRad ≤ r ∧ r ≤ rd.m_maxRad) ∧
    XYZRenderer.Draw.r rd minZ (XYZRenderer.Draw.k rd minZ maxZ) minZ = some rd.m_minRad ∧
    (∃ r : Int, XYZRenderer.Draw.r rd minZ (XYZRenderer.Draw.k rd minZ maxZ) maxZ = some r ∧
      rd.m_maxRad - 1 ≤ r ∧ r ≤ rd.m_maxRad) ∧
    (∀ D k : ℚ, Double.sub maxZ.toDouble minZ.toDouble = Double.finite D →
      XYZRenderer.Draw.k rd minZ maxZ = some (Double.finite k) →
      D * k = ((rd.m_maxRad - rd.m_minRad : Int) : ℚ) →
      XYZRenderer.Draw.r rd minZ (XYZRenderer.Draw.k rd minZ maxZ) maxZ =
        some rd.m_maxRad) ∧
    (∀ z1 z2 : FiniteDouble, minZ.val ≤ z1.val → z1.val ≤ z2.val → z2.val ≤ maxZ.val →
      ∃ r1 r2 : Int,
        XYZRenderer.Draw.r rd minZ (XYZRenderer.Draw.k rd minZ maxZ) z1 = some r1 ∧
        XYZRenderer.Draw.r rd minZ (XYZRenderer.Draw.k rd minZ maxZ) z2 = some r2 ∧
        r1 ≤ r2) := by
  have hIM : INT_MAX = 2147483647 := rfl
  obtain ⟨D, hD⟩ : ∃ D, Double.sub maxZ.toDouble minZ.toDouble = Double.finite D := by
    cases h : Double.sub maxZ.toDouble minZ.toDouble with
    | finite D => exact ⟨D, rfl⟩
    | inf s =>
      rw [h] at hD
      exact absurd hD (by simp [Double.isFinite])
    | nan =>
      rw [h] at hD
      exact absurd hD (by simp [Double.isFinite])
  obtain ⟨k, hk⟩ : ∃ k, XYZRenderer.Draw.k rd minZ maxZ = some (Double.finite k) := by
    obtain ⟨kd, hk1, hk2⟩ := hk
    cases kd with
    | finite k => exact ⟨k, hk1⟩
    | inf s => exact absurd hk2 (by simp [Double.isFinite])
    | nan => exact absurd hk2 (by simp [Double.isFinite])
  obtain ⟨hD1, hDpos, hDle, hk0, hDk⟩ := Draw_k_facts rd minZ maxZ h0 hrad hmax hlt D k hD hk
  rw [abs_le] at hDk
  have hval := fun z h1 h2 => Draw_r_value rd minZ maxZ h0 hrad hmax hlt D k hD hk z h1 h2
  have hcast : ((rd.m_maxRad - rd.m_minRad : Int) : ℚ) = (rd.m_maxRad : ℚ) - rd.m_minRad := by
    push_cast
    ring
  have hbounds : ∀ z : FiniteDouble, minZ.val ≤ z.val → z.val ≤ maxZ.val →
      rd.m_minRad ≤ ⌊Draw.value rd.m_minRad minZ.val k z.val⌋ ∧
      ⌊Draw.value rd.m_minRad minZ.val k z.val⌋ ≤ rd.m_maxRad := by
    intro z h1 h2
    obtain ⟨_, _, hge, hle⟩ := hval z h1 h2
    refine ⟨Int.le_floor.mpr hge, ?_⟩
    have : ⌊Draw.value rd.m_minRad minZ.val k z.val⌋ < rd.m_maxRad + 1 := by
      rw [Int.floor_lt]
      push_cast
      linarith
    omega
  -- the value at the upper bound
  have hmaxval : Draw.value rd.m_minRad minZ.val k maxZ.val =
      roundToGrid (roundToGrid (D * k) + (rd.m_minRad : ℚ)) := by
    unfold Draw.value
    rw [← hD1]
  refine ⟨?_, ?_, ?_, ?_, ?_⟩
  · intro z h1 h2
    exact ⟨_, (hval z h1 h2).1, hbounds z h1 h2⟩
  · rw [(hval minZ (le_refl _) hlt.le).1]
    have : Draw.value rd.m_minRad minZ.val k minZ.val = (rd.m_minRad : ℚ) := by
      unfold Draw.value
      rw [sub_self, roundToGrid_zero, zero_mul, roundToGrid_zero, zero_add,
        roundToGrid_int _ (by omega)]
    rw [this, Int.floor_intCast]
  · refine ⟨_, (hval maxZ hlt.le (le_refl _)).1, ?_, (hbounds maxZ hlt.le (le_refl _)).2⟩
    rcases eq_or_lt_of_le hrad with heq | hlt2
    · have := (hbounds maxZ hlt.le (le_refl _)).1
      omega
    · rw [hmaxval]
      have hp : (((rd.m_maxRad - rd.m_minRad - 1 : Int) : ℚ)) + 1 / 2 ≤ roundToGrid (D * k) := by
        apply half_le_roundToGrid _ (by omega) (by omega)
        push_cast
        rw [hcast] at hDk
        linarith [hDk.1]
      have hs : (((rd.m_maxRad - 1 : Int) : ℚ)) + 1 / 2 ≤
          roundToGrid (roundToGrid (D * k) + (rd.m_minRad : ℚ)) := by
        apply half_le_roundToGrid _ (by omega) (by omega)
        push_cast at hp ⊢
        linarith
      have hfl : rd.m_maxRad - 1 ≤ ⌊roundToGrid (roundToGrid (D * k) + (rd.m_minRad : ℚ))⌋ := by
        rw [Int.le_floor]
        push_cast at hs ⊢
        linarith
      exact hfl
  · intro D2 k2 hD2 hk2 hexact
    have hDD : D2 = D := by
      rw [hD] at hD2
      injection hD2 with h
      exact h.symm
    have hkk : k2 = k := by
      rw [hk] at hk2
      injection hk2 with h
      injection h with h
      exact h.symm
    rw [hDD, hkk] at hexact
    rw [(hval maxZ hlt.le (le_refl _)).1, hmaxval, hexact,
      roundToGrid_int _ (by omega)]
    have : ((rd.m_maxRad - rd.m_minRad : Int) : ℚ) + (rd.m_minRad : ℚ) =
        ((rd.m_maxRad : Int) : ℚ) := by
      push_cast
      ring
    rw [this, roundToGrid_int _ (by omega), Int.floor_intCast]
  · intro z1 z2 h1 h12 h2
    refine ⟨_, _, (hval z1 h1 (le_trans h12 h2)).1, (hval z2 (le_trans h1 h12) h2).1, ?_⟩
    exact Int.floor_mono (Draw_value_mono rd.m_minRad h0 minZ.val k hk0 h1 h12)

/-- The scale factor of the radii 2 and 10 over the bounds 1 and 5 is 2. -/
theorem Draw_k_sample : XYZRenderer.Draw.k (XYZRenderer.new 2 10) double1 double5 =
    some (Double.finite 2) := by
  have h4 : Double.round (4 : ℚ) = Double.finite 4 := by
    have := Double.round_small_int 4 (by decide)
    simpa using this
  have h8 : Double.ofInt 8 = Double.finite 8 := by
    have := Double.ofInt_eq 8 (by decide)
    simpa using this
  have h2 : Double.round ((8 : ℚ) / 4) = Double.finite 2 := by
    have := Double.round_small_int 2 (by decide)
    have e : (8 : ℚ) / 4 = ((2 : Int) : ℚ) := by norm_num
    rw [e, this]
    norm_num
  have e1 : double5.val - double1.val = 4 := by
    norm_num [double1, double5, FiniteDouble.val]
  have hi : intSub (XYZRenderer.new 2 10).m_maxRad (XYZRenderer.new 2 10).m_minRad =
      some 8 := by
    simp [XYZRenderer.new, intSub, INT_MIN, INT_MAX]
  rw [Draw_k_of_intSub _ _ _ 8 hi, e1, h4, h8]
  simp only [Double.div]
  rw [if_neg (by norm_num), h2]

/-- Witness of the C10 theorem: radii 2 and 10, bounds `[1, 5]`; the difference of
the bounds is 4, the scale factor is 2, and the radius is 2 at 1 and 10 at 5. -/
theorem C10_radius_within_radii_amended_witness :
    ((0 : Int) ≤ (XYZRenderer.new 2 10).m_minRad ∧
      (XYZRenderer.new 2 10).m_minRad ≤ (XYZRenderer.new 2 10).m_maxRad ∧
      (XYZRenderer.new 2 10).m_maxRad ≤ INT_MAX ∧
      double1.val < double5.val ∧
      (Double.sub double5.toDouble double1.toDouble).isFinite = true ∧
      XYZRenderer.Draw.k (XYZRenderer.new 2 10) double1 double5 = some (Double.finite 2)) ∧
    XYZRenderer.Draw.r (XYZRenderer.new 2 10) double1
        (XYZRenderer.Draw.k (XYZRenderer.new 2 10) double1 double5) double1 =
      some (XYZRenderer.new 2 10).m_minRad ∧
    XYZRenderer.Draw.r (XYZRenderer.new 2 10) double1
        (XYZRenderer.Draw.k (XYZRenderer.new 2 10) double1 double5) double5 =
      some (XYZRenderer.new 2 10).m_maxRad := by
  have hlt : double1.val < double5.val := by
    norm_num [double1, double5, FiniteDouble.val]
  have hsub : Double.sub double5.toDouble double1.toDouble = Double.finite 4 := by
    have h4 : Double.round (4 : ℚ) = Double.finite 4 := by
      have := Double.round_small_int 4 (by decide)
      simpa using this
    have e1 : double5.val - double1.val = 4 := by
      norm_num [double1, double5, FiniteDouble.val]
    simp only [Double.sub, FiniteDouble.toDouble]
    rw [e1, h4]
  have hfin : (Double.sub double5.toDouble double1.toDouble).isFinite = true := by
    rw [hsub]
    rfl
  have hthm := C10_radius_within_radii_amended (XYZRenderer.new 2 10) double1 double5
    (by decide) (by decide) (by decide) hlt hfin ⟨_, Draw_k_sample, rfl⟩
  exact ⟨⟨by decide, by decide, by decide, hlt, hfin, Draw_k_sample⟩, hthm.2.1,
    hthm.2.2.2.1 4 2 hsub Draw_k_sample (by norm_num [XYZRenderer.new])⟩

end WxFreeChart
